import Mathlib

/-!
Verification of the amika sandbox/mount lifecycle manager.

Shallow embedding of the sandbox lifecycle manager of `gofixpoint/amika`
(the `amika sandbox create` / `sandbox delete` / `volume delete` commands,
the three JSONL record stores, the name minter and the git-remote filter),
together with proofs and refutations of the specification's claims.

Conventions used throughout:
* Go strings are Lean `String`s; single-byte searches (`strings.Index` with
  `"@"` / `":"`) are modelled at character granularity, which agrees with
  byte indices for the comparisons the code makes (see `goIndexChar`).
* `time.Now().UnixNano()` and `time.Now().UTC().Format(...)` are modelled as
  oracle parameters (`nanos : Nat`, `createdAt : String`) supplied to the
  functions that read the clock; `UnixNano` is non-negative for all dates
  after 1970, so a `Nat` is used.
* Fallible I/O primitives (docker commands, file writes) are modelled with
  explicit success/failure oracles where the surrounding code inspects their
  errors.  Where a claim is only about control flow that runs after such a
  primitive succeeded, the primitive is modelled as a pure state update.
-/

/-! ## Decimal representation (strconv.FormatInt base 10, non-negative case) -/

/-- The decimal digit characters of `n`, most significant first; this is
`strconv.FormatInt(n, 10)` for non-negative `n`. -/

def natDecimalDigits (n : Nat) : List Char :=
  if _h : n < 10 then [Nat.digitChar n]
  else natDecimalDigits (n / 10) ++ [Nat.digitChar (n % 10)]
  decreasing_by exact Nat.div_lt_self (by omega) (by omega)

/-- Decimal string of a natural number (`strconv.FormatInt` for `n ≥ 0`). -/
def natDecimalString (n : Nat) : String :=
  String.mk (natDecimalDigits n)

/-- `strings.HasPrefix`, at character granularity (byte prefixes and
character prefixes agree for valid UTF-8). -/
def goHasPrefix (s pre : String) : Bool :=
  pre.data.isPrefixOf s.data

/-- `strings.ToLower`, restricted to ASCII (the only inputs the handlers
compare are ASCII words). -/
def goToLower (s : String) : String :=
  String.mk (s.data.map Char.toLower)

/-- `strings.TrimSpace`, for ASCII whitespace. -/
def goTrimSpace (s : String) : String :=
  String.mk (((s.data.dropWhile Char.isWhitespace).reverse.dropWhile
    Char.isWhitespace).reverse)

/-- `strings.Contains`. -/
def goContainsSubstr (s sub : String) : Bool :=
  decide (sub.data <:+: s.data)

/-- The character substitution performed by the `strings.NewReplacer` in
`generateRWCopyVolumeName`. -/
def sanitizeChar (c : Char) : Char :=
  if c = '/' ∨ c = '_' ∨ c = '.' then '-' else c

/-- `strings.TrimPrefix(target, "/")` followed by the replacer, collapsing an
empty result to `"root"` — the shared sanitisation step of both minters. -/
def sanitizeTarget (target : String) : String :=
  let trimmed := if goHasPrefix target "/" then String.mk (target.data.drop 1) else target
  let s := String.mk (trimmed.data.map sanitizeChar)
  if s = "" then "root" else s

/-- `generateRWCopyVolumeName` (part_014 lines 800-806); the call to
`time.Now().UnixNano()` is the `nanos` parameter. -/
def generateRWCopyVolumeName (sandboxName target : String) (nanos : Nat) : String :=
  "amika-rwcopy-" ++ sandboxName ++ "-" ++ sanitizeTarget target ++ "-" ++ natDecimalString nanos

/-- `generateRWCopyFileMountName` (part_014 lines 808-814). -/
def generateRWCopyFileMountName (sandboxName target : String) (nanos : Nat) : String :=
  "amika-rwcopy-file-" ++ sandboxName ++ "-" ++ sanitizeTarget target ++ "-" ++ natDecimalString nanos

/-! ## JSON value model for the JSONL record files

A state file is a list of JSON lines.  We model each well-formed line as an
association list of keys to JSON values (`encoding/json` keeps the *last*
binding when a key is repeated, see `jLookup`).  `JVal.other` stands for any
JSON value that is neither a string, an array, an object nor `null` (numbers
and booleans): the stores never emit such values for known fields, and
`json.Unmarshal` rejects them for the known (string / string-array /
object-array) fields, which is all the model needs.  `null` is kept separate
because `json.Unmarshal` treats it as a no-op (the field keeps its zero
value) rather than as an error. -/

inductive JVal where
  | str (s : String)
  | arr (elems : List JVal)
  | obj (fields : List (String × JVal))
  | null
  | other

/-- A well-formed record line: a JSON object, as key/value bindings. -/
abbrev JObj := List (String × JVal)

/-- A JSONL state file: the decodable lines, in order.  (Blank and
syntactically malformed lines are skipped by every reader and dropped by the
next rewrite, so they are not represented.) -/
abbrev JFile := List JObj

/-- Key lookup in a JSON object; `encoding/json` lets the last binding win
when a key occurs twice. -/
def jLookup (o : JObj) (k : String) : Option JVal :=
  (o.reverse.find? (fun p => p.1 = k)).map Prod.snd

/-- Decode a Go `string` field: missing and `null` give the zero value, any
other non-string value is an unmarshal error. -/
def jGetString (o : JObj) (k : String) : Option String :=
  match jLookup o k with
  | none => some ""
  | some (JVal.str s) => some s
  | some JVal.null => some ""
  | some _ => none

/-- Decode a JSON array as a Go `[]string`; a non-string element is an
unmarshal error. -/
def decodeStrings : List JVal → Option (List String)
  | [] => some []
  | JVal.str s :: rest => (decodeStrings rest).map (s :: ·)
  | _ => none

/-- Decode a Go `[]string` field: missing gives `nil` (which we identify with
the empty list, exactly as `omitempty` does on the write side); a non-array or
an array with a non-string element is an unmarshal error. -/
def jGetStringList (o : JObj) (k : String) : Option (List String) :=
  match jLookup o k with
  | none => some []
  | some JVal.null => some []
  | some (JVal.arr elems) => decodeStrings elems
  | some _ => none

/-! ## Record types (internal/sandbox)

`VolumeInfo` and `FileMountInfo` are the structs of
`internal/sandbox/volume_store.go` and the file-mount store; `V1.MountBinding`
and `V1.Info` are the sandbox-store structs (part_019).  Go `nil` slices and
empty slices are identified (as `omitempty` marshalling does). -/

structure VolumeInfo where
  name : String
  createdAt : String
  createdBy : String
  sourcePath : String
  sandboxRefs : List String
deriving DecidableEq, Repr

structure FileMountInfo where
  name : String
  type : String
  createdAt : String
  createdBy : String
  sourcePath : String
  copyPath : String
  sandboxRefs : List String
deriving DecidableEq, Repr

namespace V1

structure MountBinding where
  source : String
  target : String
  mode : String
deriving DecidableEq, Repr

structure Info where
  name : String
  provider : String
  containerId : String
  image : String
  createdAt : String
  preset : String
  mounts : List MountBinding
  env : List String
deriving DecidableEq, Repr

end V1

/-! ### json.Unmarshal / json.Marshal of the record structs -/

/-- `json.Unmarshal` of one line into a `VolumeInfo`; `none` is an unmarshal
error (the readers skip such lines). -/
def decodeVolumeInfo (o : JObj) : Option VolumeInfo := do
  let name ← jGetString o "name"
  let createdAt ← jGetString o "createdAt"
  let createdBy ← jGetString o "createdBy"
  let sourcePath ← jGetString o "sourcePath"
  let sandboxRefs ← jGetStringList o "sandboxRefs"
  pure ⟨name, createdAt, createdBy, sourcePath, sandboxRefs⟩

/-- `json.Marshal` of a `VolumeInfo`: struct field order, with `omitempty` on
`createdBy`, `sourcePath` and `sandboxRefs`. -/
def encodeVolumeInfo (v : VolumeInfo) : JObj :=
  [("name", JVal.str v.name), ("createdAt", JVal.str v.createdAt)]
    ++ (if v.createdBy = "" then [] else [("createdBy", JVal.str v.createdBy)])
    ++ (if v.sourcePath = "" then [] else [("sourcePath", JVal.str v.sourcePath)])
    ++ (if v.sandboxRefs = [] then []
        else [("sandboxRefs", JVal.arr (v.sandboxRefs.map JVal.str))])

/-- `json.Unmarshal` of one line into a `FileMountInfo`. -/
def decodeFileMountInfo (o : JObj) : Option FileMountInfo := do
  let name ← jGetString o "name"
  let type ← jGetString o "type"
  let createdAt ← jGetString o "createdAt"
  let createdBy ← jGetString o "createdBy"
  let sourcePath ← jGetString o "sourcePath"
  let copyPath ← jGetString o "copyPath"
  let sandboxRefs ← jGetStringList o "sandboxRefs"
  pure ⟨name, type, createdAt, createdBy, sourcePath, copyPath, sandboxRefs⟩

/-- `json.Marshal` of a `FileMountInfo`: `omitempty` on `createdBy`,
`sourcePath` and `sandboxRefs`; `type` and `copyPath` are always emitted. -/
def encodeFileMountInfo (v : FileMountInfo) : JObj :=
  [("name", JVal.str v.name), ("type", JVal.str v.type),
   ("createdAt", JVal.str v.createdAt)]
    ++ (if v.createdBy = "" then [] else [("createdBy", JVal.str v.createdBy)])
    ++ (if v.sourcePath = "" then [] else [("sourcePath", JVal.str v.sourcePath)])
    ++ [("copyPath", JVal.str v.copyPath)]
    ++ (if v.sandboxRefs = [] then []
        else [("sandboxRefs", JVal.arr (v.sandboxRefs.map JVal.str))])

/-- `json.Unmarshal` of one array element into a `V1.MountBinding`; JSON
`null` leaves the zero struct (a Go no-op), any other non-object errors. -/
def decodeMountBindingV1 (v : JVal) : Option V1.MountBinding :=
  match v with
  | JVal.obj o => do
      let source ← jGetString o "source"
      let target ← jGetString o "target"
      let mode ← jGetString o "mode"
      pure ⟨source, target, mode⟩
  | JVal.null => some ⟨"", "", ""⟩
  | _ => none

def encodeMountBindingV1 (m : V1.MountBinding) : JVal :=
  JVal.obj [("source", JVal.str m.source), ("target", JVal.str m.target),
            ("mode", JVal.str m.mode)]

/-- Decode a JSON array as a Go `[]MountBinding`. -/
def decodeMounts : List JVal → Option (List V1.MountBinding)
  | [] => some []
  | v :: rest =>
      match decodeMountBindingV1 v with
      | none => none
      | some m => (decodeMounts rest).map (m :: ·)

/-- Decode a `[]MountBinding` field. -/
def jGetMounts (o : JObj) (k : String) : Option (List V1.MountBinding) :=
  match jLookup o k with
  | none => some []
  | some JVal.null => some []
  | some (JVal.arr elems) => decodeMounts elems
  | some _ => none

/-- `json.Unmarshal` of one line into a sandbox `V1.Info`. -/
def decodeInfoV1 (o : JObj) : Option V1.Info := do
  let name ← jGetString o "name"
  let provider ← jGetString o "provider"
  let containerId ← jGetString o "containerId"
  let image ← jGetString o "image"
  let createdAt ← jGetString o "createdAt"
  let preset ← jGetString o "preset"
  let mounts ← jGetMounts o "mounts"
  let env ← jGetStringList o "env"
  pure ⟨name, provider, containerId, image, createdAt, preset, mounts, env⟩

/-- `json.Marshal` of a sandbox `V1.Info`: `omitempty` on `preset`, `mounts`
and `env`. -/
def encodeInfoV1 (v : V1.Info) : JObj :=
  [("name", JVal.str v.name), ("provider", JVal.str v.provider),
   ("containerId", JVal.str v.containerId), ("image", JVal.str v.image),
   ("createdAt", JVal.str v.createdAt)]
    ++ (if v.preset = "" then [] else [("preset", JVal.str v.preset)])
    ++ (if v.mounts = [] then []
        else [("mounts", JVal.arr (v.mounts.map encodeMountBindingV1))])
    ++ (if v.env = [] then [] else [("env", JVal.arr (v.env.map JVal.str))])

/-! ### The three stores' file-level operations

Each store is `readAll` (decode every line, skipping undecodable ones),
`writeAll` (truncate and re-emit every record), and `Save` / `Get` / `List`
built from them exactly as in the Go methods.  A failed `Get` (Go returns a
"no ... found" error) is `none`. -/

/-- The shared upsert in `Save`: replace the first record with the same name,
else append. -/
def upsertBy {α : Type} (key : α → String) : List α → α → List α
  | [], r => [r]
  | x :: rest, r => if key x = key r then r :: rest else x :: upsertBy key rest r

def volumeReadAll (f : JFile) : List VolumeInfo := f.filterMap decodeVolumeInfo

def volumeWriteAll (l : List VolumeInfo) : JFile := l.map encodeVolumeInfo

def volumeSave (f : JFile) (r : VolumeInfo) : JFile :=
  volumeWriteAll (upsertBy VolumeInfo.name (volumeReadAll f) r)

def volumeGet (f : JFile) (n : String) : Option VolumeInfo :=
  (volumeReadAll f).find? (fun v => v.name = n)

def volumeList (f : JFile) : List VolumeInfo := volumeReadAll f

def fileMountReadAll (f : JFile) : List FileMountInfo := f.filterMap decodeFileMountInfo

def fileMountWriteAll (l : List FileMountInfo) : JFile := l.map encodeFileMountInfo

def fileMountSave (f : JFile) (r : FileMountInfo) : JFile :=
  fileMountWriteAll (upsertBy FileMountInfo.name (fileMountReadAll f) r)

def fileMountGet (f : JFile) (n : String) : Option FileMountInfo :=
  (fileMountReadAll f).find? (fun v => v.name = n)

def fileMountList (f : JFile) : List FileMountInfo := fileMountReadAll f

def sandboxReadAll (f : JFile) : List V1.Info := f.filterMap decodeInfoV1

def sandboxWriteAll (l : List V1.Info) : JFile := l.map encodeInfoV1

def sandboxSave (f : JFile) (r : V1.Info) : JFile :=
  sandboxWriteAll (upsertBy V1.Info.name (sandboxReadAll f) r)

def sandboxGet (f : JFile) (n : String) : Option V1.Info :=
  (sandboxReadAll f).find? (fun v => v.name = n)

def sandboxList (f : JFile) : List V1.Info := sandboxReadAll f

/-! ## List-level store operations

The orchestrator and the reaper act on the record stores through the store
methods.  `volumeReadAll_writeAll` (and its siblings) show the JSONL layer is
in exact correspondence with the decoded record lists, so the lifecycle code
is modelled directly over record lists; each operation below is the record
manipulation of the corresponding Go method.  A failed rewrite of a state
file is modelled as leaving the store unchanged (atomic failure). -/

namespace VolStore

def get (l : List VolumeInfo) (n : String) : Option VolumeInfo :=
  l.find? (fun v => v.name = n)

def save (l : List VolumeInfo) (r : VolumeInfo) : List VolumeInfo :=
  upsertBy VolumeInfo.name l r

def remove (l : List VolumeInfo) (n : String) : List VolumeInfo :=
  l.filter (fun v => v.name ≠ n)

/-- `AddSandboxRef`: fetch, append the ref unless already present, save.
`none` is the `Get` error (no such volume). -/
def addSandboxRef (l : List VolumeInfo) (n sb : String) : Option (List VolumeInfo) :=
  (get l n).map fun info =>
    save l (if info.sandboxRefs.contains sb then info
            else { info with sandboxRefs := info.sandboxRefs ++ [sb] })

/-- `RemoveSandboxRef`: fetch, filter the ref out, save. -/
def removeSandboxRef (l : List VolumeInfo) (n sb : String) : Option (List VolumeInfo) :=
  (get l n).map fun info =>
    save l { info with sandboxRefs := info.sandboxRefs.filter (fun r => r ≠ sb) }

def volumesForSandbox (l : List VolumeInfo) (sb : String) : List VolumeInfo :=
  l.filter (fun v => v.sandboxRefs.contains sb)

def isInUse (l : List VolumeInfo) (n : String) : Option Bool :=
  (get l n).map fun info => decide (0 < info.sandboxRefs.length)

end VolStore

namespace FMStore

def get (l : List FileMountInfo) (n : String) : Option FileMountInfo :=
  l.find? (fun v => v.name = n)

def save (l : List FileMountInfo) (r : FileMountInfo) : List FileMountInfo :=
  upsertBy FileMountInfo.name l r

def remove (l : List FileMountInfo) (n : String) : List FileMountInfo :=
  l.filter (fun v => v.name ≠ n)

def removeSandboxRef (l : List FileMountInfo) (n sb : String) :
    Option (List FileMountInfo) :=
  (get l n).map fun info =>
    save l { info with sandboxRefs := info.sandboxRefs.filter (fun r => r ≠ sb) }

def fileMountsForSandbox (l : List FileMountInfo) (sb : String) : List FileMountInfo :=
  l.filter (fun v => v.sandboxRefs.contains sb)

def isInUse (l : List FileMountInfo) (n : String) : Option Bool :=
  (get l n).map fun info => decide (0 < info.sandboxRefs.length)

end FMStore

/-! ## Runtime bindings and sandbox records of the create/delete commands

`MountBinding` and `Info` as used by part_014 (`Type`, `Volume` and
`SnapshotFrom` fields included). -/

structure MountBinding where
  type : String
  source : String
  volume : String
  target : String
  mode : String
  snapshotFrom : String
deriving DecidableEq, Repr

structure Info where
  name : String
  provider : String
  containerID : String
  image : String
  createdAt : String
  preset : String
  mounts : List MountBinding
  env : List String
deriving DecidableEq, Repr

namespace SbStore

def get (l : List Info) (n : String) : Option Info :=
  l.find? (fun v => v.name = n)

def save (l : List Info) (r : Info) : List Info :=
  upsertBy Info.name l r

def remove (l : List Info) (n : String) : List Info :=
  l.filter (fun v => v.name ≠ n)

end SbStore

/-! ## World state

The state visible to one invocation: the three decoded record files plus the
physical resources (docker volumes, file-mount copy directories, containers).
The contents of volumes/files are not modelled, their existence is. -/

structure WorldState where
  sandboxes : List Info
  volumes : List VolumeInfo
  fileMounts : List FileMountInfo
  dockerVolumes : List String
  dirs : List String
  containers : List String
deriving DecidableEq, Repr

/-- `filepath.Base`. -/
def goFilepathBase (p : String) : String :=
  if p = "" then "."
  else
    let cs := p.data.reverse.dropWhile (fun c => c = '/')
    if cs = [] then "/" else String.mk ((cs.takeWhile (fun c => c ≠ '/')).reverse)

/-- `promptForConfirmation` (part_014 lines 779-798) over the remaining input
lines; `none` models the read error when input is exhausted. -/
def promptForConfirmation : List String → Option Bool
  | [] => none
  | line :: rest =>
      let answer := goTrimSpace (goToLower line)
      if answer = "y" ∨ answer = "yes" then some true
      else if answer = "n" ∨ answer = "no" then some false
      else promptForConfirmation rest

/-! ## The creation saga (sandboxCreateCmd, part_014 lines 174-320)

Mutating steps are sequenced exactly as in the handler; each fallible
primitive that the handler checks gets a success flag (or a stat outcome)
from a per-mount oracle.  On failure the handler calls `rollbackAll` and
returns the error. -/

/-- The rollback ledger accumulated by the handler: `createdVolumes`,
`addedRefs` (map keys in insertion order), `createdFileMountDirs`,
`addedFileRefs` (map keys in insertion order). -/
structure Ledger where
  createdVolumes : List String
  addedRefs : List String
  createdFileMountDirs : List String
  addedFileRefs : List String
deriving DecidableEq, Repr

def Ledger.empty : Ledger := ⟨[], [], [], []⟩

/-- The first loop of `rollbackAll`: `volumeStore.RemoveSandboxRef(v, name)`
for every key of `addedRefs`, errors discarded (`_ =`). -/
def rollbackRefs (name : String) : List String → WorldState → WorldState
  | [], s => s
  | v :: rest, s =>
      rollbackRefs name rest
        (match VolStore.removeSandboxRef s.volumes v name with
         | none => s
         | some vols => { s with volumes := vols })

/-- The second loop of `rollbackAll`: `volumeStore.Remove(v)` and
`RemoveDockerVolume(v)` for every created volume. -/
def rollbackCreatedVolumes : List String → WorldState → WorldState
  | [], s => s
  | v :: rest, s =>
      rollbackCreatedVolumes rest
        { s with volumes := VolStore.remove s.volumes v,
                 dockerVolumes := s.dockerVolumes.filter (fun d => d ≠ v) }

/-- The third loop of `rollbackAll`: `fileMountStore.Remove(m)` for every key
of `addedFileRefs`. -/
def rollbackFileRefs : List String → WorldState → WorldState
  | [], s => s
  | m :: rest, s =>
      rollbackFileRefs rest { s with fileMounts := FMStore.remove s.fileMounts m }

/-- The fourth loop of `rollbackAll`: `os.RemoveAll(dir)` for every created
copy directory. -/
def rollbackDirs : List String → WorldState → WorldState
  | [], s => s
  | d :: rest, s =>
      rollbackDirs rest { s with dirs := s.dirs.filter (fun x => x ≠ d) }

/-- `rollbackAll` (part_014 lines 179-193): remove added refs, remove created
volume records and their docker volumes, remove created file-mount records,
remove created copy directories.  Errors of the compensating calls are
discarded by the handler. -/
def rollbackAll (name : String) (lg : Ledger) (s : WorldState) : WorldState :=
  rollbackDirs lg.createdFileMountDirs
    (rollbackFileRefs lg.addedFileRefs
      (rollbackCreatedVolumes lg.createdVolumes
        (rollbackRefs name lg.addedRefs s)))

/-- Outcome of `os.Stat` on an rwcopy source. -/
inductive StatResult | dir | file | err
deriving DecidableEq, Repr

/-- Oracle for the fallible steps of one rwcopy mount: the stat outcome, the
clock reads, and success flags for volume create, volume populate, record
save, copy-dir create and file copy. -/
structure MountStep where
  stat : StatResult
  nanos : Nat
  createdAt : String
  createVolOk : Bool
  copyOk : Bool
  mkdirOk : Bool
  copyFileOk : Bool
  saveOk : Bool
deriving DecidableEq, Repr

/-- The error exits of the create handler, one per `return` site. -/
inductive CreateErr
  | statErr | volCreateErr | volCopyErr | volSaveErr
  | mkdirErr | fileCopyErr | fileSaveErr
  | volumeNotTracked | attachFailed
  | containerErr | commitErr
  | promptErr | nameExists
deriving DecidableEq, Repr

/-- Result of a phase of the handler: either the threaded state, ledger and
accumulated runtime mounts, or an error together with the state after the
rollback that precedes the `return`. -/
inductive StepResult where
  | ok (s : WorldState) (lg : Ledger) (runtimeMounts : List MountBinding)
  | fail (e : CreateErr) (s : WorldState)
deriving Repr

/-- The rwcopy processing loop (part_014 lines 195-278). -/
def processMounts (name baseDir : String) :
    List (MountBinding × MountStep) → WorldState → Ledger → List MountBinding → StepResult
  | [], s, lg, rms => .ok s lg rms
  | (m, step) :: rest, s, lg, rms =>
    if m.mode ≠ "rwcopy" then
      processMounts name baseDir rest s lg (rms ++ [m])
    else
      match step.stat with
      | .err => .fail .statErr (rollbackAll name lg s)
      | .dir =>
        let volumeName := generateRWCopyVolumeName name m.target step.nanos
        if !step.createVolOk then .fail .volCreateErr (rollbackAll name lg s)
        else
          let s := { s with dockerVolumes := s.dockerVolumes ++ [volumeName] }
          let lg := { lg with createdVolumes := lg.createdVolumes ++ [volumeName] }
          if !step.copyOk then .fail .volCopyErr (rollbackAll name lg s)
          else if !step.saveOk then .fail .volSaveErr (rollbackAll name lg s)
          else
            let volInfo : VolumeInfo :=
              ⟨volumeName, step.createdAt, "rwcopy", m.source, [name]⟩
            let s := { s with volumes := VolStore.save s.volumes volInfo }
            let lg := { lg with addedRefs :=
              if lg.addedRefs.contains volumeName then lg.addedRefs
              else lg.addedRefs ++ [volumeName] }
            processMounts name baseDir rest s lg
              (rms ++ [⟨"volume", "", volumeName, m.target, "rw", m.source⟩])
      | .file =>
        let mountName := generateRWCopyFileMountName name m.target step.nanos
        let copyDir := baseDir ++ "/" ++ mountName
        if !step.mkdirOk then .fail .mkdirErr (rollbackAll name lg s)
        else
          let s := { s with dirs :=
            if s.dirs.contains copyDir then s.dirs else s.dirs ++ [copyDir] }
          let lg := { lg with createdFileMountDirs := lg.createdFileMountDirs ++ [copyDir] }
          let copyPath := copyDir ++ "/" ++ goFilepathBase m.source
          if !step.copyFileOk then .fail .fileCopyErr (rollbackAll name lg s)
          else if !step.saveOk then .fail .fileSaveErr (rollbackAll name lg s)
          else
            let fmInfo : FileMountInfo :=
              ⟨mountName, "file", step.createdAt, "rwcopy", m.source, copyPath, [name]⟩
            let s := { s with fileMounts := FMStore.save s.fileMounts fmInfo }
            let lg := { lg with addedFileRefs :=
              if lg.addedFileRefs.contains mountName then lg.addedFileRefs
              else lg.addedFileRefs ++ [mountName] }
            processMounts name baseDir rest s lg
              (rms ++ [⟨"bind", copyPath, "", m.target, "rw", m.source⟩])

/-- The volume-attach loop (part_014 lines 280-291); the `Bool` is the
success flag of the store write inside `AddSandboxRef`. -/
def processVolumeMounts (name : String) :
    List (MountBinding × Bool) → WorldState → Ledger → List MountBinding → StepResult
  | [], s, lg, rms => .ok s lg rms
  | (v, saveOk) :: rest, s, lg, rms =>
    match VolStore.get s.volumes v.volume with
    | none => .fail .volumeNotTracked (rollbackAll name lg s)
    | some _ =>
      match (if saveOk then VolStore.addSandboxRef s.volumes v.volume name else none) with
      | none => .fail .attachFailed (rollbackAll name lg s)
      | some vols =>
        let s := { s with volumes := vols }
        let lg := { lg with addedRefs :=
          if lg.addedRefs.contains v.volume then lg.addedRefs
          else lg.addedRefs ++ [v.volume] }
        processVolumeMounts name rest s lg (rms ++ [v])

/-- The inputs to one create invocation after parsing and validation, with
the oracles for its fallible steps. -/
structure CreateCfg where
  name : String
  provider : String
  image : String
  preset : String
  env : List String
  yes : Bool
  stdin : List String
  baseDir : String
  mounts : List (MountBinding × MountStep)
  volumeMounts : List (MountBinding × Bool)
  containerOk : Bool
  containerId : String
  sandboxCreatedAt : String
  finalSaveOk : Bool

/-- How the handler returned: `created` (prints "Sandbox … created"),
`abortedByUser` (prints "Aborted." and returns `nil`, i.e. success), or
`failed` with the error site. -/
inductive CreateResult where
  | created
  | abortedByUser
  | failed (e : CreateErr)
deriving DecidableEq, Repr

/-- Both mutation loops followed by `CreateDockerSandbox`
(part_014 lines 174-297). -/
def createPhase (cfg : CreateCfg) (s0 : WorldState) : StepResult :=
  match processMounts cfg.name cfg.baseDir cfg.mounts s0 Ledger.empty [] with
  | .fail e s => .fail e s
  | .ok s lg rms =>
    match processVolumeMounts cfg.name cfg.volumeMounts s lg rms with
    | .fail e s => .fail e s
    | .ok s lg rms =>
      if !cfg.containerOk then .fail .containerErr (rollbackAll cfg.name lg s)
      else .ok { s with containers := s.containers ++ [cfg.name] } lg rms

/-- The sandbox record assembled by the handler just before the final
persist (part_014 lines 299-308). -/
def mkSandboxInfo (cfg : CreateCfg) (rms : List MountBinding) : Info :=
  ⟨cfg.name, cfg.provider, cfg.containerId, cfg.image,
   cfg.sandboxCreatedAt, cfg.preset, rms, cfg.env⟩

/-- The create handler from the name-availability check onwards
(part_014 lines 129-320): reject a taken name, confirm when mounts are
present and `--yes` was not given, run the saga, and persist the sandbox
record as the final commit (no rollback on a commit failure). -/
def runCreate (cfg : CreateCfg) (s0 : WorldState) : CreateResult × WorldState :=
  if (SbStore.get s0.sandboxes cfg.name).isSome then (.failed .nameExists, s0)
  else
    let proceed : Option Bool :=
      if (cfg.mounts ≠ [] ∨ cfg.volumeMounts ≠ []) ∧ !cfg.yes then
        promptForConfirmation cfg.stdin
      else some true
    match proceed with
    | none => (.failed .promptErr, s0)
    | some false => (.abortedByUser, s0)
    | some true =>
      match createPhase cfg s0 with
      | .fail e s => (.failed e, s)
      | .ok s _ rms =>
        if !cfg.finalSaveOk then (.failed .commitErr, s)
        else (.created, { s with sandboxes := SbStore.save s.sandboxes (mkSandboxInfo cfg rms) })

/-! ## The deletion flow (sandboxDeleteCmd, part_014 lines 323-399) -/

/-- The backing stores exclusively referenced by `name` (every reference in
the record equals `name`), directory-volumes first then file-mounts — the
`exclusive` list built by `resolveDeleteVolumes` (part_014 lines 992-1021). -/
def exclusiveStores (s : WorldState) (name : String) : List String :=
  (VolStore.volumesForSandbox s.volumes name).filterMap (fun v =>
    if v.sandboxRefs.all (fun r => r = name) then some v.name else none)
  ++ (FMStore.fileMountsForSandbox s.fileMounts name).filterMap (fun fm =>
    if fm.sandboxRefs.all (fun r => r = name) then some fm.name else none)

/-- `resolveDeleteVolumes` (part_014 lines 972-1034): explicit
`--delete-volumes` wins, then explicit `--keep-volumes`; otherwise prompt
only when some attached store is exclusively referenced.  `none` is the
prompt read error. -/
def resolveDeleteVolumes (s : WorldState) (name : String)
    (deleteVolumesSet keepVolumesSet : Bool) (stdin : List String) : Option Bool :=
  if deleteVolumesSet then some true
  else if keepVolumesSet then some false
  else if exclusiveStores s name = [] then some false
  else promptForConfirmation stdin

/-- `cleanupSandboxVolumes` (part_014 lines 831-888) with the physical
`docker volume rm` and the store rewrites modelled as succeeding: snapshot
the volumes referencing the sandbox, then per volume release the ref and, if
deleting and no refs remain, delete the physical volume and the record.
Returns the final state and the status lines. -/
def cleanupVolumesLoop (name : String) (deleteVolumes : Bool) :
    List VolumeInfo → WorldState → WorldState × List String
  | [], st => (st, [])
  | volume :: rest, st =>
    match VolStore.removeSandboxRef st.volumes volume.name name with
    | none =>
        let r := cleanupVolumesLoop name deleteVolumes rest st
        (r.1, ("volume " ++ volume.name ++ ": delete-failed: failed to update refs") :: r.2)
    | some vols =>
      let st := { st with volumes := vols }
      if !deleteVolumes then
        let r := cleanupVolumesLoop name deleteVolumes rest st
        (r.1, ("volume " ++ volume.name ++ ": preserved") :: r.2)
      else
        match VolStore.isInUse st.volumes volume.name with
        | none =>
            let r := cleanupVolumesLoop name deleteVolumes rest st
            (r.1, ("volume " ++ volume.name ++ ": delete-failed: failed to check usage") :: r.2)
        | some true =>
            let r := cleanupVolumesLoop name deleteVolumes rest st
            (r.1, ("volume " ++ volume.name ++ ": preserved (still referenced)") :: r.2)
        | some false =>
            let st := { st with
              dockerVolumes := st.dockerVolumes.filter (fun d => d ≠ volume.name),
              volumes := VolStore.remove st.volumes volume.name }
            let r := cleanupVolumesLoop name deleteVolumes rest st
            (r.1, ("volume " ++ volume.name ++ ": deleted") :: r.2)

def cleanupSandboxVolumes (s : WorldState) (name : String) (deleteVolumes : Bool) :
    WorldState × List String :=
  cleanupVolumesLoop name deleteVolumes (VolStore.volumesForSandbox s.volumes name) s

/-- `filepath.Dir` (for clean paths): everything before the last element. -/
def goFilepathDir (p : String) : String :=
  let rev := p.data.reverse.dropWhile (fun c => c ≠ '/')
  let rev2 := rev.dropWhile (fun c => c = '/')
  if rev2 = [] then (if rev = [] then "." else "/") else String.mk rev2.reverse

/-- `cleanupSandboxFileMounts` (part_014 lines 890-946), modelled like
`cleanupSandboxVolumes`; the physical delete is `os.RemoveAll` on the
directory of the copy path. -/
def cleanupFileMountsLoop (name : String) (deleteMounts : Bool) :
    List FileMountInfo → WorldState → WorldState × List String
  | [], st => (st, [])
  | fm :: rest, st =>
    match FMStore.removeSandboxRef st.fileMounts fm.name name with
    | none =>
        let r := cleanupFileMountsLoop name deleteMounts rest st
        (r.1, ("file-mount " ++ fm.name ++ ": delete-failed: failed to update refs") :: r.2)
    | some fms =>
      let st := { st with fileMounts := fms }
      if !deleteMounts then
        let r := cleanupFileMountsLoop name deleteMounts rest st
        (r.1, ("file-mount " ++ fm.name ++ ": preserved") :: r.2)
      else
        match FMStore.isInUse st.fileMounts fm.name with
        | none =>
            let r := cleanupFileMountsLoop name deleteMounts rest st
            (r.1, ("file-mount " ++ fm.name ++ ": delete-failed: failed to check usage") :: r.2)
        | some true =>
            let r := cleanupFileMountsLoop name deleteMounts rest st
            (r.1, ("file-mount " ++ fm.name ++ ": preserved (still referenced)") :: r.2)
        | some false =>
            let st := { st with
              dirs := st.dirs.filter (fun d => d ≠ goFilepathDir fm.copyPath),
              fileMounts := FMStore.remove st.fileMounts fm.name }
            let r := cleanupFileMountsLoop name deleteMounts rest st
            (r.1, ("file-mount " ++ fm.name ++ ": deleted") :: r.2)

def cleanupSandboxFileMounts (s : WorldState) (name : String) (deleteMounts : Bool) :
    WorldState × List String :=
  cleanupFileMountsLoop name deleteMounts
    (FMStore.fileMountsForSandbox s.fileMounts name) s

/-- How the delete handler returned, one constructor per `return` site (the
cleanup-error aggregation returns after printing the statuses). -/
inductive DeleteOutcome
  | ok | flagsConflict | notFound | resolveErr | containerErr | cleanupErr
deriving DecidableEq, Repr

structure DeleteCfg where
  name : String
  deleteVolumesSet : Bool
  keepVolumesSet : Bool
  stdin : List String
  containerRemoveOk : Bool

/-- `sandboxDeleteCmd` (part_014 lines 329-399): validate the flags, look up
the record, resolve the policy, remove the container (fatal on failure),
release/cleanup both store kinds, remove the sandbox record, aggregate
cleanup errors.  (`--delete-volumes=false` style explicit-value misuse is
outside the model: the set flags carry value `true`.) -/
def runDelete (cfg : DeleteCfg) (s0 : WorldState) :
    DeleteOutcome × WorldState × List String :=
  if cfg.deleteVolumesSet ∧ cfg.keepVolumesSet then (.flagsConflict, s0, [])
  else
    match SbStore.get s0.sandboxes cfg.name with
    | none => (.notFound, s0, [])
    | some info =>
      match resolveDeleteVolumes s0 cfg.name cfg.deleteVolumesSet cfg.keepVolumesSet
          cfg.stdin with
      | none => (.resolveErr, s0, [])
      | some deleteVolumes =>
        if info.provider = "docker" ∧ !cfg.containerRemoveOk then (.containerErr, s0, [])
        else
          let s1 := if info.provider = "docker" then
              { s0 with containers := s0.containers.filter (fun c => c ≠ cfg.name) }
            else s0
          let v := cleanupSandboxVolumes s1 cfg.name deleteVolumes
          let f := cleanupSandboxFileMounts v.1 cfg.name deleteVolumes
          let s4 := { f.1 with sandboxes := SbStore.remove f.1.sandboxes cfg.name }
          if (v.2 ++ f.2).any (fun line => goContainsSubstr line "delete-failed") then
            (.cleanupErr, s4, v.2 ++ f.2)
          else (.ok, s4, v.2 ++ f.2)

/-! ## volume delete (part_009: deleteTrackedVolume / deleteTrackedFileMount) -/

inductive VolDeleteErr | notFound | inUse | removeFailed
deriving DecidableEq, Repr

/-- `deleteTrackedVolume` (part_009 lines 635-657); `removeOk` is the success
flag of the physical `docker volume rm`. -/
def deleteTrackedVolume (s : WorldState) (name : String) (force removeOk : Bool) :
    Except VolDeleteErr WorldState :=
  match VolStore.get s.volumes name with
  | none => .error .notFound
  | some volume =>
    if 0 < volume.sandboxRefs.length ∧ !force then .error .inUse
    else if !removeOk then .error .removeFailed
    else .ok { s with dockerVolumes := s.dockerVolumes.filter (fun d => d ≠ name),
                      volumes := VolStore.remove s.volumes name }

/-- `deleteTrackedFileMount` (part_009 lines 659-680); `removeOk` is the
success flag of `os.RemoveAll` on the copy directory. -/
def deleteTrackedFileMount (s : WorldState) (name : String) (force removeOk : Bool) :
    Except VolDeleteErr WorldState :=
  match FMStore.get s.fileMounts name with
  | none => .error .notFound
  | some fm =>
    if 0 < fm.sandboxRefs.length ∧ !force then .error .inUse
    else if !removeOk then .error .removeFailed
    else .ok { s with dirs := s.dirs.filter (fun d => d ≠ goFilepathDir fm.copyPath),
                      fileMounts := FMStore.remove s.fileMounts name }

/-! ## Mount parsing and target validation (part_014 lines 467-569) -/

/-- Split a character list at the first `:`. -/
def splitFirstColon : List Char → Option (List Char × List Char)
  | [] => none
  | c :: rest =>
      if c = ':' then some ([], rest)
      else (splitFirstColon rest).map (fun p => (c :: p.1, p.2))

/-- `strings.SplitN(s, ":", 3)`. -/
def splitNColon3 (s : String) : List String :=
  match splitFirstColon s.data with
  | none => [s]
  | some (a, rest) =>
    match splitFirstColon rest with
    | none => [String.mk a, String.mk rest]
    | some (b, c) => [String.mk a, String.mk b, String.mk c]

inductive ParseErr
  | badFormat | badMode | relativeTarget | dupTarget | emptyVolumeName
deriving DecidableEq, Repr

/-- The `parseMountFlags` loop: split each flag on `:` (mode defaults to
`rwcopy`), resolve the source (`abs` models `filepath.Abs`), validate the
target and mode, reject duplicate targets among the user's `--mount`
flags. -/
def parseMountFlagsAux (abs : String → String) :
    List String → List String → List MountBinding → Except ParseErr (List MountBinding)
  | [], _, acc => .ok acc
  | raw :: rest, seen, acc =>
    match (match splitNColon3 raw with
           | [source, target] => some (source, target, "rwcopy")
           | [source, target, mode] => some (source, target, mode)
           | _ => none) with
    | none => .error .badFormat
    | some (source, target, mode) =>
      let absSource := abs source
      if !goHasPrefix target "/" then .error .relativeTarget
      else if mode ≠ "ro" ∧ mode ≠ "rw" ∧ mode ≠ "rwcopy" then .error .badMode
      else if seen.contains target then .error .dupTarget
      else parseMountFlagsAux abs rest (seen ++ [target])
        (acc ++ [⟨"bind", absSource, "", target, mode, ""⟩])

/-- `parseMountFlags` (part_014 lines 469-512). -/
def parseMountFlags (abs : String → String) (flags : List String) :
    Except ParseErr (List MountBinding) :=
  parseMountFlagsAux abs flags [] []

/-- The `parseVolumeFlags` loop (part_014 lines 516-555); mode defaults to
`rw` and the name is `TrimSpace`d. -/
def parseVolumeFlagsAux :
    List String → List String → List MountBinding → Except ParseErr (List MountBinding)
  | [], _, acc => .ok acc
  | raw :: rest, seen, acc =>
    match (match splitNColon3 raw with
           | [nm, target] => some (nm, target, "rw")
           | [nm, target, mode] => some (nm, target, mode)
           | _ => none) with
    | none => .error .badFormat
    | some (nm, target, mode) =>
      let nm := goTrimSpace nm
      if nm = "" then .error .emptyVolumeName
      else if !goHasPrefix target "/" then .error .relativeTarget
      else if mode ≠ "ro" ∧ mode ≠ "rw" then .error .badMode
      else if seen.contains target then .error .dupTarget
      else parseVolumeFlagsAux rest (seen ++ [target])
        (acc ++ [⟨"volume", "", nm, target, mode, ""⟩])

def parseVolumeFlags (flags : List String) : Except ParseErr (List MountBinding) :=
  parseVolumeFlagsAux flags [] []

/-- The loop of `validateMountTargets` over the volume mounts, `seen`
pre-loaded with every bind-mount target (part_014 lines 557-569).  Returns
`true` when the function returns `nil`. -/
def validateMountTargetsAux : List MountBinding → List String → Bool
  | [], _ => true
  | m :: rest, seen =>
      if seen.contains m.target then false
      else validateMountTargetsAux rest (seen ++ [m.target])

/-- `validateMountTargets`: the first loop only records the bind targets in
`seen`; only the volume-mount loop checks for duplicates. -/
def validateMountTargets (bindMounts volumeMounts : List MountBinding) : Bool :=
  validateMountTargetsAux volumeMounts (bindMounts.map (fun m => m.target))

/-- The mount-assembly prefix of `sandboxCreateCmd` (part_014 lines 79-106):
parse the `--mount` and `--volume` flags, append the git-prepared mount and
the injected agent-config mounts, then validate the targets. -/
def assembleCreateMounts (abs : String → String) (mountStrs volumeStrs : List String)
    (gitMount : Option MountBinding) (agentMounts : List MountBinding) :
    Except ParseErr (List MountBinding × List MountBinding) := do
  let mounts ← parseMountFlags abs mountStrs
  let volumeMounts ← parseVolumeFlags volumeStrs
  let mounts := mounts ++ (match gitMount with | some g => [g] | none => []) ++ agentMounts
  if validateMountTargets mounts volumeMounts then .ok (mounts, volumeMounts)
  else .error .dupTarget

/-! ## Git remote filtering (part_014 lines 694-753) -/

/-- `strings.Index(s, c)` for a single-character needle: the index of the
first occurrence, `-1` when absent.  Byte and character indices agree for
the comparisons made by `isNetworkRemoteURL` (`@` and `:` are one byte, so
"more than one byte after" is "not the immediately following character"). -/
def goIndexChar (s : String) (c : Char) : Int :=
  match s.data.findIdx? (fun x => x = c) with
  | some i => (i : Int)
  | none => -1

/-- `isNetworkRemoteURL` (part_014 lines 740-753). -/
def isNetworkRemoteURL (url : String) : Bool :=
  if goHasPrefix url "http://" || goHasPrefix url "https://" || goHasPrefix url "ssh://" then
    true
  else if goHasPrefix url "file://" then false
  else
    let atIdx := goIndexChar url '@'
    let colonIdx := goIndexChar url ':'
    atIdx > 0 && colonIdx > atIdx + 1

/-- The net effect of `syncGitRemotes` (part_014 lines 694-721) on the
prepared repository's remotes: every destination remote is removed, then the
source remotes whose URL passes `isNetworkRemoteURL` are added in sorted
name order.  Remote names are unique (git remotes form a map). -/
def syncGitRemotes (srcRemotes _dstRemotes : List (String × String)) :
    List (String × String) :=
  (srcRemotes.filter (fun p => isNetworkRemoteURL p.2)).mergeSort
    (fun a b => a.1 ≤ b.1)

/-- The retention predicate exactly as the claim words it: the URL starts
with `http://`, `https://` or `ssh://`, or it matches the scp-like form
`user@host:path` — "an `@` occurring before a `:` with at least one
character between them"; `file://` URLs and plain local paths are not
network remotes. -/
def claimNetworkRemoteURL (url : String) : Prop :=
  goHasPrefix url "http://" = true ∨ goHasPrefix url "https://" = true ∨
  goHasPrefix url "ssh://" = true ∨
  (¬ goHasPrefix url "file://" = true ∧
    ∃ i j, url.data.get? i = some '@' ∧ url.data.get? j = some ':' ∧ i + 1 < j)

/-- The amended retention predicate: the scp-like test is on the *first*
occurrences — the first `@` of the URL is at a positive index and the first
`:` is more than one position after it. -/
def amendedNetworkRemoteURL (url : String) : Prop :=
  goHasPrefix url "http://" = true ∨ goHasPrefix url "https://" = true ∨
  goHasPrefix url "ssh://" = true ∨
  (¬ goHasPrefix url "file://" = true ∧
    ∃ i j, 0 < i ∧ i + 1 < j ∧
      url.data.get? i = some '@' ∧ (∀ k, k < i → ∀ a, url.data.get? k = some a → a ≠ '@') ∧
      url.data.get? j = some ':' ∧ (∀ k, k < j → ∀ a, url.data.get? k = some a → a ≠ ':'))

/-- The known JSON schema of a directory-volume record line. -/
def volumeKnownKeys : List String :=
  ["name", "createdAt", "createdBy", "sourcePath", "sandboxRefs"]

def W3 : WorldState :=
  ⟨[⟨"delta", "docker", "cid", "img", "t", "", [], []⟩],
   [⟨"v", "t0", "", "", ["delta"]⟩],
   [⟨"f", "file", "t0", "", "/s/a.txt", "/cp/f/a.txt", ["delta"]⟩],
   ["v"], ["/cp/f"], ["delta"]⟩

/-- Pointwise effect of the `rollbackRefs` loop on one record: if the record's
name is among the rolled-back keys, the sandbox reference is filtered out. -/
def refsF (name : String) (ar : List String) (r : VolumeInfo) : VolumeInfo :=
  if ar.contains r.name then
    { r with sandboxRefs := r.sandboxRefs.filter (fun z => z ≠ name) } else r

/-- The volumes-component of the `rollbackRefs` loop. -/
def volsRemoveRefs (name : String) : List String → List VolumeInfo → List VolumeInfo
  | [], vols => vols
  | v :: rest, vols =>
      volsRemoveRefs name rest
        (match VolStore.removeSandboxRef vols v name with
         | none => vols
         | some vols2 => vols2)

/-- The rwcopy directory-volume names one create invocation mints for a mount
list (in processing order). -/
def mintedVolNames (name : String) (l : List (MountBinding × MountStep)) : List String :=
  l.filterMap (fun p =>
    if p.1.mode = "rwcopy" ∧ p.2.stat = StatResult.dir then
      some (generateRWCopyVolumeName name p.1.target p.2.nanos) else none)

/-- The rwcopy file-mount names one create invocation mints for a mount list. -/
def mintedFMNames (name : String) (l : List (MountBinding × MountStep)) : List String :=
  l.filterMap (fun p =>
    if p.1.mode = "rwcopy" ∧ p.2.stat = StatResult.file then
      some (generateRWCopyFileMountName name p.1.target p.2.nanos) else none)

/-- The invariant the create saga maintains: a failure state is exactly the
initial state, and an in-flight state rolls back to it (with the bookkeeping
facts the attach loop needs about the volume records and the ledger). -/
def RollbackOk (s0 : WorldState) (name : String) : StepResult → Prop
  | .fail _ s2 => s2 = s0
  | .ok s2 lg2 _ => rollbackAll name lg2 s2 = s0 ∧
      (s2.volumes.map VolumeInfo.name).Nodup ∧
      (∀ r ∈ s2.volumes, name ∈ r.sandboxRefs → lg2.addedRefs.contains r.name = true) ∧
      (∀ a ∈ lg2.addedRefs, ∃ r ∈ s2.volumes, r.name = a ∧ name ∈ r.sandboxRefs)

/-- The world of the C1 counterexample: volume `v` carries a stale reference
to the sandbox name `s` being created. -/
def C1s0 : WorldState :=
  ⟨[], [⟨"v", "t0", "", "", ["s"]⟩], [], ["v"], [], []⟩

/-- World for the amended-C1 witness: one tracked volume referenced by
another sandbox only. -/
def C1s0w : WorldState :=
  ⟨[], [⟨"v", "t0", "", "", ["other"]⟩], [], ["v"], [], []⟩

/-! ## Theorems -/

theorem digitChar_ne_dash {n : Nat} (h : n < 10) : Nat.digitChar n ≠ '-' := by
  interval_cases n <;> decide

theorem natDecimalDigits_ne_dash (n : Nat) : ∀ c ∈ natDecimalDigits n, c ≠ '-' := by
  induction n using Nat.strong_induction_on with
  | _ n ih =>
    intro c hc
    rw [natDecimalDigits] at hc
    by_cases h : n < 10
    · rw [dif_pos h, List.mem_singleton] at hc
      subst hc; exact digitChar_ne_dash h
    · rw [dif_neg h] at hc
      rcases List.mem_append.mp hc with hc | hc
      · exact ih (n / 10) (Nat.div_lt_self (by omega) (by omega)) c hc
      · rw [List.mem_singleton] at hc
        subst hc; exact digitChar_ne_dash (Nat.mod_lt _ (by omega))

theorem digitChar_injOn {m n : Nat} (hm : m < 10) (hn : n < 10)
    (h : Nat.digitChar m = Nat.digitChar n) : m = n := by
  interval_cases m <;> interval_cases n <;> revert h <;> decide

theorem natDecimalDigits_length_pos (n : Nat) : 0 < (natDecimalDigits n).length := by
  rw [natDecimalDigits]
  by_cases h : n < 10
  · rw [dif_pos h]; simp
  · rw [dif_neg h]; simp

theorem natDecimalDigits_inj : ∀ {m n : Nat},
    natDecimalDigits m = natDecimalDigits n → m = n := by
  intro m
  induction m using Nat.strong_induction_on with
  | _ m ih =>
    intro n h
    conv at h => lhs; rw [natDecimalDigits]
    conv at h => rhs; rw [natDecimalDigits]
    by_cases hm : m < 10 <;> by_cases hn : n < 10
    · rw [dif_pos hm, dif_pos hn] at h
      injection h with h1 _
      exact digitChar_injOn hm hn h1
    · exfalso
      rw [dif_pos hm, dif_neg hn] at h
      have hl := congrArg List.length h
      simp only [List.length_singleton, List.length_append] at hl
      have := natDecimalDigits_length_pos (n / 10)
      omega
    · exfalso
      rw [dif_neg hm, dif_pos hn] at h
      have hl := congrArg List.length h
      simp only [List.length_singleton, List.length_append] at hl
      have := natDecimalDigits_length_pos (m / 10)
      omega
    · rw [dif_neg hm, dif_neg hn] at h
      have h' := congrArg List.reverse h
      simp only [List.reverse_append, List.reverse_singleton, List.singleton_append] at h'
      injection h' with h1 h2
      have hm10 : m % 10 = n % 10 :=
        digitChar_injOn (Nat.mod_lt _ (by omega)) (Nat.mod_lt _ (by omega)) h1
      have hd10 : m / 10 = n / 10 :=
        ih (m / 10) (Nat.div_lt_self (by omega) (by omega)) (List.reverse_injective h2)
      omega

/-! ## Name minter (part_014: generateRWCopyVolumeName / generateRWCopyFileMountName)

`strings.NewReplacer("/", "-", "_", "-", ".", "-")` maps each single character
independently, so it is a character map. `strings.TrimPrefix(target, "/")`
removes one leading `/` when present. -/

theorem string_append_data (a b : String) : (a ++ b).data = a.data ++ b.data := rfl

theorem natDecimalString_inj {m n : Nat} (h : natDecimalString m = natDecimalString n) :
    m = n := by
  apply natDecimalDigits_inj
  exact congrArg String.data h

/-- Appending two strings and then taking `.data` for the minted names; the
dash count of the decimal suffix is zero. -/
theorem natDecimalString_dash_count (n : Nat) :
    (natDecimalString n).data.count '-' = 0 := by
  rw [List.count_eq_zero]
  intro h
  exact natDecimalDigits_ne_dash n '-' h rfl

theorem mk_data (l : List Char) : (String.mk l).data = l := rfl

theorem generateRWCopyVolumeName_inj (s t : String) {n₁ n₂ : Nat}
    (h : generateRWCopyVolumeName s t n₁ = generateRWCopyVolumeName s t n₂) :
    n₁ = n₂ := by
  apply natDecimalDigits_inj
  have hd := congrArg String.data h
  simp only [generateRWCopyVolumeName, string_append_data, natDecimalString, mk_data] at hd
  exact List.append_cancel_left hd

theorem generateRWCopyFileMountName_inj (s t : String) {n₁ n₂ : Nat}
    (h : generateRWCopyFileMountName s t n₁ = generateRWCopyFileMountName s t n₂) :
    n₁ = n₂ := by
  apply natDecimalDigits_inj
  have hd := congrArg String.data h
  simp only [generateRWCopyFileMountName, string_append_data, natDecimalString, mk_data] at hd
  exact List.append_cancel_left hd

/-- A directory-volume minted name and a file-mount minted name for the same
sandbox and target never coincide: the `file` infix contributes one extra `-`
to the name while the decimal suffix contributes none. -/
theorem generateRWCopy_vol_ne_file (s t : String) (n₁ n₂ : Nat) :
    generateRWCopyVolumeName s t n₁ ≠ generateRWCopyFileMountName s t n₂ := by
  intro h
  have hd := congrArg (fun x : String => x.data.count '-') h
  simp only [generateRWCopyVolumeName, generateRWCopyFileMountName, string_append_data,
    List.count_append, natDecimalString_dash_count] at hd
  have h1 : ("amika-rwcopy-".data.count '-') = 2 := by decide
  have h2 : ("amika-rwcopy-file-".data.count '-') = 3 := by decide
  have h3 : ("-".data.count '-') = 1 := by decide
  rw [h1, h2, h3] at hd
  omega

/-! ### Decode/encode roundtrips -/

theorem decodeStrings_roundtrip (l : List String) :
    decodeStrings (l.map JVal.str) = some l := by
  induction l with
  | nil => rfl
  | cons a l ih => simp [decodeStrings, ih]

theorem decode_encode_volumeInfo (v : VolumeInfo) :
    decodeVolumeInfo (encodeVolumeInfo v) = some v := by
  obtain ⟨name, createdAt, createdBy, sourcePath, sandboxRefs⟩ := v
  simp only [encodeVolumeInfo, decodeVolumeInfo]
  split_ifs <;>
    simp_all [jLookup, jGetString, jGetStringList, List.find?, decodeStrings_roundtrip]

theorem decode_encode_fileMountInfo (v : FileMountInfo) :
    decodeFileMountInfo (encodeFileMountInfo v) = some v := by
  obtain ⟨name, type, createdAt, createdBy, sourcePath, copyPath, sandboxRefs⟩ := v
  simp only [encodeFileMountInfo, decodeFileMountInfo]
  split_ifs <;>
    simp_all [jLookup, jGetString, jGetStringList, List.find?, decodeStrings_roundtrip]

theorem decode_encode_mountBindingV1 (m : V1.MountBinding) :
    decodeMountBindingV1 (encodeMountBindingV1 m) = some m := by
  obtain ⟨source, target, mode⟩ := m
  simp [encodeMountBindingV1, decodeMountBindingV1, jLookup, jGetString, List.find?]

theorem decodeMounts_roundtrip (l : List V1.MountBinding) :
    decodeMounts (l.map encodeMountBindingV1) = some l := by
  induction l with
  | nil => rfl
  | cons a l ih => simp [decodeMounts, decode_encode_mountBindingV1, ih]

theorem decode_encode_infoV1 (v : V1.Info) :
    decodeInfoV1 (encodeInfoV1 v) = some v := by
  obtain ⟨name, provider, containerId, image, createdAt, preset, mounts, env⟩ := v
  simp only [encodeInfoV1, decodeInfoV1]
  split_ifs <;>
    simp_all [jLookup, jGetString, jGetStringList, jGetMounts, List.find?,
      decodeStrings_roundtrip, decodeMounts_roundtrip]

theorem volumeReadAll_writeAll (l : List VolumeInfo) :
    volumeReadAll (volumeWriteAll l) = l := by
  induction l with
  | nil => rfl
  | cons a l ih =>
      simp only [volumeReadAll, volumeWriteAll, List.map_cons, List.filterMap_cons,
        decode_encode_volumeInfo] at *
      simp [ih]

theorem fileMountReadAll_writeAll (l : List FileMountInfo) :
    fileMountReadAll (fileMountWriteAll l) = l := by
  induction l with
  | nil => rfl
  | cons a l ih =>
      simp only [fileMountReadAll, fileMountWriteAll, List.map_cons, List.filterMap_cons,
        decode_encode_fileMountInfo] at *
      simp [ih]

theorem sandboxReadAll_writeAll (l : List V1.Info) :
    sandboxReadAll (sandboxWriteAll l) = l := by
  induction l with
  | nil => rfl
  | cons a l ih =>
      simp only [sandboxReadAll, sandboxWriteAll, List.map_cons, List.filterMap_cons,
        decode_encode_infoV1] at *
      simp [ih]

theorem find?_upsertBy {α : Type} (key : α → String) (l : List α) (r : α) :
    (upsertBy key l r).find? (fun v => key v = key r) = some r := by
  induction l with
  | nil => simp [upsertBy, List.find?]
  | cons x rest ih =>
      by_cases hx : key x = key r
      · simp [upsertBy, hx, List.find?]
      · rw [upsertBy, if_neg hx, List.find?_cons_of_neg _ (by simpa using hx)]
        exact ih

theorem mem_upsertBy {α : Type} (key : α → String) (l : List α) (r : α) :
    r ∈ upsertBy key l r := by
  induction l with
  | nil => simp [upsertBy]
  | cons x rest ih =>
      by_cases hx : key x = key r
      · simp [upsertBy, hx]
      · simp [upsertBy, hx, ih]

/-! ## Supporting lemmas: store layer -/

theorem volGet_remove (l : List VolumeInfo) (n : String) :
    VolStore.get (VolStore.remove l n) n = none := by
  rw [VolStore.get, List.find?_eq_none]
  intro x hx
  have := (List.mem_filter.mp hx).2
  simpa using this

theorem fmGet_remove (l : List FileMountInfo) (n : String) :
    FMStore.get (FMStore.remove l n) n = none := by
  rw [FMStore.get, List.find?_eq_none]
  intro x hx
  have := (List.mem_filter.mp hx).2
  simpa using this

/-! ## Supporting lemmas: rollback and create-phase frame conditions -/

theorem rollbackRefs_frame (name : String) (l : List String) (s : WorldState) :
    (rollbackRefs name l s).sandboxes = s.sandboxes ∧
    (rollbackRefs name l s).containers = s.containers := by
  induction l generalizing s with
  | nil => exact ⟨rfl, rfl⟩
  | cons v rest ih =>
      rw [rollbackRefs]
      cases VolStore.removeSandboxRef s.volumes v name <;> exact ih _

theorem rollbackCreatedVolumes_frame (l : List String) (s : WorldState) :
    (rollbackCreatedVolumes l s).sandboxes = s.sandboxes ∧
    (rollbackCreatedVolumes l s).containers = s.containers := by
  induction l generalizing s with
  | nil => exact ⟨rfl, rfl⟩
  | cons v rest ih => rw [rollbackCreatedVolumes]; exact ih _

theorem rollbackFileRefs_frame (l : List String) (s : WorldState) :
    (rollbackFileRefs l s).sandboxes = s.sandboxes ∧
    (rollbackFileRefs l s).containers = s.containers := by
  induction l generalizing s with
  | nil => exact ⟨rfl, rfl⟩
  | cons v rest ih => rw [rollbackFileRefs]; exact ih _

theorem rollbackDirs_frame (l : List String) (s : WorldState) :
    (rollbackDirs l s).sandboxes = s.sandboxes ∧
    (rollbackDirs l s).containers = s.containers := by
  induction l generalizing s with
  | nil => exact ⟨rfl, rfl⟩
  | cons v rest ih => rw [rollbackDirs]; exact ih _

theorem rollbackAll_frame (name : String) (lg : Ledger) (s : WorldState) :
    (rollbackAll name lg s).sandboxes = s.sandboxes ∧
    (rollbackAll name lg s).containers = s.containers := by
  rw [rollbackAll]
  refine ⟨?_, ?_⟩
  · rw [(rollbackDirs_frame _ _).1, (rollbackFileRefs_frame _ _).1,
      (rollbackCreatedVolumes_frame _ _).1, (rollbackRefs_frame _ _ _).1]
  · rw [(rollbackDirs_frame _ _).2, (rollbackFileRefs_frame _ _).2,
      (rollbackCreatedVolumes_frame _ _).2, (rollbackRefs_frame _ _ _).2]

/-- Neither mutation loop of the create saga touches the sandbox store or the
containers. -/
theorem processMounts_frame (name baseDir : String) :
    ∀ (ms : List (MountBinding × MountStep)) (s : WorldState) (lg : Ledger)
      (rms : List MountBinding),
      (match processMounts name baseDir ms s lg rms with
       | .ok s' _ _ => s'.sandboxes = s.sandboxes ∧ s'.containers = s.containers
       | .fail _ s' => s'.sandboxes = s.sandboxes ∧ s'.containers = s.containers) := by
  intro ms
  induction ms with
  | nil => intro s lg rms; exact ⟨rfl, rfl⟩
  | cons p rest ih =>
    intro s lg rms
    obtain ⟨m, step⟩ := p
    rw [processMounts]
    by_cases hmode : m.mode ≠ "rwcopy"
    · rw [if_pos hmode]; exact ih _ _ _
    · rw [if_neg hmode]
      cases hstat : step.stat with
      | err => exact rollbackAll_frame _ _ _
      | dir =>
        by_cases h1 : (!step.createVolOk) = true
        · simp only [h1, if_true]
          exact rollbackAll_frame _ _ _
        · simp only [h1, if_false]
          by_cases h2 : (!step.copyOk) = true
          · simp only [h2, if_true]
            exact rollbackAll_frame _ _ _
          · simp only [h2, if_false]
            by_cases h3 : (!step.saveOk) = true
            · simp only [h3, if_true]
              exact rollbackAll_frame _ _ _
            · simp only [h3, if_false]
              exact ih _ _ _
      | file =>
        by_cases h1 : (!step.mkdirOk) = true
        · simp only [h1, if_true]
          exact rollbackAll_frame _ _ _
        · simp only [h1, if_false]
          by_cases h2 : (!step.copyFileOk) = true
          · simp only [h2, if_true]
            exact rollbackAll_frame _ _ _
          · simp only [h2, if_false]
            by_cases h3 : (!step.saveOk) = true
            · simp only [h3, if_true]
              exact rollbackAll_frame _ _ _
            · simp only [h3, if_false]
              exact ih _ _ _

theorem processVolumeMounts_frame (name : String) :
    ∀ (vs : List (MountBinding × Bool)) (s : WorldState) (lg : Ledger)
      (rms : List MountBinding),
      (match processVolumeMounts name vs s lg rms with
       | .ok s' _ _ => s'.sandboxes = s.sandboxes ∧ s'.containers = s.containers
       | .fail _ s' => s'.sandboxes = s.sandboxes ∧ s'.containers = s.containers) := by
  intro vs
  induction vs with
  | nil => intro s lg rms; exact ⟨rfl, rfl⟩
  | cons p rest ih =>
    intro s lg rms
    obtain ⟨v, saveOk⟩ := p
    rw [processVolumeMounts]
    cases hget : VolStore.get s.volumes v.volume with
    | none => exact rollbackAll_frame _ _ _
    | some info =>
      cases hadd : (if saveOk then VolStore.addSandboxRef s.volumes v.volume name
          else none) with
      | none => exact rollbackAll_frame _ _ _
      | some vols => exact ih _ _ _

/-- A successful create phase leaves the sandbox records untouched and adds
exactly the new container. -/
theorem createPhase_ok_frame (cfg : CreateCfg) (s0 s : WorldState)
    (lg : Ledger) (rms : List MountBinding) (h : createPhase cfg s0 = .ok s lg rms) :
    s.sandboxes = s0.sandboxes ∧ s.containers = s0.containers ++ [cfg.name] := by
  rw [createPhase] at h
  have h1 := processMounts_frame cfg.name cfg.baseDir cfg.mounts s0 Ledger.empty []
  cases hm : processMounts cfg.name cfg.baseDir cfg.mounts s0 Ledger.empty [] with
  | fail e1 s1 =>
    rw [hm] at h
    exact StepResult.noConfusion h
  | ok s1 lg1 rms1 =>
    rw [hm] at h h1
    simp only [] at h h1
    have h2 := processVolumeMounts_frame cfg.name cfg.volumeMounts s1 lg1 rms1
    cases hv : processVolumeMounts cfg.name cfg.volumeMounts s1 lg1 rms1 with
    | fail e2 s2 =>
      rw [hv] at h
      simp only [] at h
      exact StepResult.noConfusion h
    | ok s2 lg2 rms2 =>
      rw [hv] at h h2
      simp only [] at h
      by_cases hc : (!cfg.containerOk) = true
      · rw [if_pos hc] at h
        exact StepResult.noConfusion h
      · rw [if_neg hc] at h
        injection h with hs _ _
        subst hs
        exact ⟨h2.1.trans h1.1, by simp [h2.2, h1.2]⟩

/-! ## Supporting lemmas: first-index characterisation for the URL filter -/

theorem findIdx?_some_iff {α : Type} (p : α → Bool) :
    ∀ (l : List α) (i : Nat),
      l.findIdx? p = some i ↔
        ((∃ a, l.get? i = some a ∧ p a = true) ∧
         ∀ k, k < i → ∀ a, l.get? k = some a → p a = false) := by
  intro l
  induction l with
  | nil => intro i; simp
  | cons x xs ih =>
    intro i
    rw [show List.findIdx? p (x :: xs) = (if p x = true then some 0 else
        (List.findIdx? p xs).map (· + 1)) from by
      rw [List.findIdx?_cons, List.findIdx?_succ]]
    by_cases hx : p x = true
    · rw [if_pos hx]
      constructor
      · intro h
        have hi : i = 0 := by injection h with h'; omega
        subst hi
        exact ⟨⟨x, rfl, hx⟩, fun k hk => absurd hk (by omega)⟩
      · rintro ⟨⟨a, ha, hpa⟩, hmin⟩
        rcases Nat.eq_zero_or_pos i with rfl | hi
        · rfl
        · exfalso
          have := hmin 0 hi x rfl
          rw [this] at hx; exact Bool.noConfusion hx
    · rw [if_neg hx]
      constructor
      · intro h
        rcases Option.map_eq_some'.mp h with ⟨i', hi', rfl⟩
        obtain ⟨⟨a, ha, hpa⟩, hmin⟩ := (ih i').mp hi'
        refine ⟨⟨a, by simpa using ha, hpa⟩, ?_⟩
        intro k hk b hb
        cases k with
        | zero =>
          have hbx : x = b := by simpa using hb
          subst hbx
          simpa using hx
        | succ k' =>
          exact hmin k' (by omega) b (by simpa using hb)
      · rintro ⟨⟨a, ha, hpa⟩, hmin⟩
        cases i with
        | zero =>
          exfalso
          have hax : x = a := by simpa using ha
          subst hax
          exact hx hpa
        | succ i' =>
          have hfi : List.findIdx? p xs = some i' := (ih i').mpr ⟨⟨a, by simpa using ha, hpa⟩,
            fun k hk b hb => hmin (k+1) (by omega) b (by simpa using hb)⟩
          simp [hfi]

theorem isNetworkRemoteURL_iff_amended (url : String) :
    isNetworkRemoteURL url = true ↔ amendedNetworkRemoteURL url := by
  rw [isNetworkRemoteURL, amendedNetworkRemoteURL]
  by_cases h1 : goHasPrefix url "http://"
  · simp [h1]
  · by_cases h2 : goHasPrefix url "https://"
    · simp [h2]
    · by_cases h3 : goHasPrefix url "ssh://"
      · simp [h3]
      · by_cases hf : goHasPrefix url "file://"
        · simp [h1, h2, h3, hf]
        · rw [if_neg (by simp [h1, h2, h3]), if_neg hf]
          rw [Bool.and_eq_true, decide_eq_true_eq, decide_eq_true_eq]
          constructor
          · rintro ⟨hat, hcol⟩
            refine Or.inr (Or.inr (Or.inr ⟨by simp [hf], ?_⟩))
            rcases hA : url.data.findIdx? (fun x => x = '@') with _ | i
            · simp only [goIndexChar, hA] at hat
              norm_num at hat
            · rcases hC : url.data.findIdx? (fun x => x = ':') with _ | j
              · exfalso
                simp only [goIndexChar, hA, hC] at hat hcol
                omega
              · simp only [goIndexChar, hA, hC] at hat hcol
                obtain ⟨⟨a, ha, hpa⟩, hmina⟩ := (findIdx?_some_iff _ _ _).mp hA
                obtain ⟨⟨b, hb, hpb⟩, hminb⟩ := (findIdx?_some_iff _ _ _).mp hC
                have ha' : a = '@' := by simpa using hpa
                have hb' : b = ':' := by simpa using hpb
                subst ha'
                subst hb'
                refine ⟨i, j, by omega, by omega, ha, ?_, hb, ?_⟩
                · intro k hk c hkc hc
                  subst hc
                  have := hmina k hk _ hkc
                  simp at this
                · intro k hk c hkc hc
                  subst hc
                  have := hminb k hk _ hkc
                  simp at this
          · rintro (h | h | h | ⟨-, i, j, hi0, hij, hat, hmina, hcol, hminb⟩)
            · exact absurd h h1
            · exact absurd h h2
            · exact absurd h h3
            · have hA : url.data.findIdx? (fun x => x = '@') = some i :=
                (findIdx?_some_iff _ _ _).mpr ⟨⟨'@', hat, by simp⟩,
                  fun k hk a hak => by
                    have := hmina k hk a hak
                    simpa using this⟩
              have hC : url.data.findIdx? (fun x => x = ':') = some j :=
                (findIdx?_some_iff _ _ _).mpr ⟨⟨':', hcol, by simp⟩,
                  fun k hk a hak => by
                    have := hminb k hk a hak
                    simpa using this⟩
              simp only [goIndexChar, hA, hC]
              constructor <;> omega

/-! ## Claims -/

/-- C6: Store roundtrip — for every record `r`, after `save(r)` succeeds,
`get(r.name)` returns a record equal to `r` and `list()` contains `r`, for
each of the three record stores (directory-volumes, file-mounts,
sandboxes). -/
theorem store_roundtrip :
    (∀ (f : JFile) (r : VolumeInfo),
      volumeGet (volumeSave f r) r.name = some r ∧ r ∈ volumeList (volumeSave f r)) ∧
    (∀ (f : JFile) (r : FileMountInfo),
      fileMountGet (fileMountSave f r) r.name = some r ∧
        r ∈ fileMountList (fileMountSave f r)) ∧
    (∀ (f : JFile) (r : V1.Info),
      sandboxGet (sandboxSave f r) r.name = some r ∧ r ∈ sandboxList (sandboxSave f r)) := by
  refine ⟨fun f r => ⟨?_, ?_⟩, fun f r => ⟨?_, ?_⟩, fun f r => ⟨?_, ?_⟩⟩
  · rw [volumeGet, volumeSave, volumeReadAll_writeAll]
    exact find?_upsertBy _ _ _
  · rw [volumeList, volumeSave, volumeReadAll_writeAll]
    exact mem_upsertBy _ _ _
  · rw [fileMountGet, fileMountSave, fileMountReadAll_writeAll]
    exact find?_upsertBy _ _ _
  · rw [fileMountList, fileMountSave, fileMountReadAll_writeAll]
    exact mem_upsertBy _ _ _
  · rw [sandboxGet, sandboxSave, sandboxReadAll_writeAll]
    exact find?_upsertBy _ _ _
  · rw [sandboxList, sandboxSave, sandboxReadAll_writeAll]
    exact mem_upsertBy _ _ _

/-- C5, counterexample: a directory-volume record line carrying the unknown
field `extra` loses that field when its record is re-saved — the decoded
record of the line round-trips through `Save` into a line holding only the
known fields. -/
theorem unknown_fields_dropped_cex :
    decodeVolumeInfo [("name", JVal.str "v1"), ("createdAt", JVal.str "t0"),
        ("extra", JVal.str "x")] = some ⟨"v1", "t0", "", "", []⟩ ∧
    volumeSave [[("name", JVal.str "v1"), ("createdAt", JVal.str "t0"),
        ("extra", JVal.str "x")]] ⟨"v1", "t0", "", "", []⟩
      = [[("name", JVal.str "v1"), ("createdAt", JVal.str "t0")]] := by
  constructor <;> rfl

/-- C5, amended: re-saving a record does *not* preserve unknown JSON fields;
after any save, every line of the directory-volume state file carries only
the known schema keys. -/
theorem resave_keeps_only_known_keys (f : JFile) (r : VolumeInfo) :
    ∀ o ∈ volumeSave f r, ∀ k ∈ o.map Prod.fst, k ∈ volumeKnownKeys := by
  intro o ho k hk
  rw [volumeSave, volumeWriteAll] at ho
  obtain ⟨v, _hv, rfl⟩ := List.mem_map.mp ho
  rw [encodeVolumeInfo] at hk
  split_ifs at hk <;> simp_all [volumeKnownKeys] <;> tauto

theorem resave_keeps_only_known_keys_witness : "name" ∈ volumeKnownKeys :=
  resave_keeps_only_known_keys
    [[("name", JVal.str "v1"), ("createdAt", JVal.str "t0"), ("extra", JVal.str "x")]]
    ⟨"v1", "t0", "", "", []⟩
    [("name", JVal.str "v1"), ("createdAt", JVal.str "t0")]
    (List.mem_singleton.mpr rfl)
    "name" (by simp)

/-- C7: In-use protection for `volume delete` — on a tracked directory-volume
or file-mount record whose reference set is non-empty, the delete refuses
(returning the in-use error and changing nothing) unless `--force`; with
`--force` or an empty reference set, the physical backing store and the
record are removed. -/
theorem delete_volume_in_use_protection (s : WorldState) (name : String)
    (force removeOk : Bool) :
    (∀ vol, VolStore.get s.volumes name = some vol →
      (vol.sandboxRefs ≠ [] → force = false →
        deleteTrackedVolume s name force removeOk = .error .inUse) ∧
      ((vol.sandboxRefs = [] ∨ force = true) → removeOk = true →
        deleteTrackedVolume s name force removeOk =
          .ok { s with dockerVolumes := s.dockerVolumes.filter (fun d => d ≠ name),
                       volumes := VolStore.remove s.volumes name } ∧
        VolStore.get (VolStore.remove s.volumes name) name = none ∧
        name ∉ s.dockerVolumes.filter (fun d => d ≠ name))) ∧
    (∀ fm, FMStore.get s.fileMounts name = some fm →
      (fm.sandboxRefs ≠ [] → force = false →
        deleteTrackedFileMount s name force removeOk = .error .inUse) ∧
      ((fm.sandboxRefs = [] ∨ force = true) → removeOk = true →
        deleteTrackedFileMount s name force removeOk =
          .ok { s with dirs := s.dirs.filter (fun d => d ≠ goFilepathDir fm.copyPath),
                       fileMounts := FMStore.remove s.fileMounts name } ∧
        FMStore.get (FMStore.remove s.fileMounts name) name = none ∧
        goFilepathDir fm.copyPath ∉ s.dirs.filter (fun d => d ≠ goFilepathDir fm.copyPath))) := by
  constructor
  · intro vol hget
    constructor
    · intro hrefs hforce
      subst hforce
      simp only [deleteTrackedVolume, hget]
      split_ifs with h1 h2
      · rfl
      · exact absurd ⟨List.length_pos.mpr hrefs, by simp⟩ h1
      · exact absurd ⟨List.length_pos.mpr hrefs, by simp⟩ h1
    · intro hcase hrm
      subst hrm
      simp only [deleteTrackedVolume, hget]
      split_ifs with h1 h2
      · exfalso
        rcases hcase with h | h
        · rw [h] at h1; simp at h1
        · rw [h] at h1; simp at h1
      · simp at h2
      · exact ⟨rfl, volGet_remove _ _, by simp⟩
  · intro fm hget
    constructor
    · intro hrefs hforce
      subst hforce
      simp only [deleteTrackedFileMount, hget]
      split_ifs with h1 h2
      · rfl
      · exact absurd ⟨List.length_pos.mpr hrefs, by simp⟩ h1
      · exact absurd ⟨List.length_pos.mpr hrefs, by simp⟩ h1
    · intro hcase hrm
      subst hrm
      simp only [deleteTrackedFileMount, hget]
      split_ifs with h1 h2
      · exfalso
        rcases hcase with h | h
        · rw [h] at h1; simp at h1
        · rw [h] at h1; simp at h1
      · simp at h2
      · exact ⟨rfl, fmGet_remove _ _, by simp⟩

theorem delete_volume_in_use_protection_witness :
    deleteTrackedVolume ⟨[], [⟨"v", "t0", "rwcopy", "/src", ["sb"]⟩], [], ["v"], [], []⟩
      "v" false true = .error .inUse :=
  (((delete_volume_in_use_protection
      ⟨[], [⟨"v", "t0", "rwcopy", "/src", ["sb"]⟩], [], ["v"], [], []⟩
      "v" false true).1 ⟨"v", "t0", "rwcopy", "/src", ["sb"]⟩ rfl).1 (by decide) rfl)

/-- C8: Minted-name distinctness — for two minted backing-store names for the
same sandbox name and the same sanitized target within one creation, distinct
nanosecond timestamps give distinct names of either kind, and a
directory-volume name never equals a file-mount name regardless of the
timestamps. -/
theorem minted_name_distinctness (s t : String) (n₁ n₂ : Nat) :
    (n₁ ≠ n₂ → generateRWCopyVolumeName s t n₁ ≠ generateRWCopyVolumeName s t n₂) ∧
    (n₁ ≠ n₂ → generateRWCopyFileMountName s t n₁ ≠ generateRWCopyFileMountName s t n₂) ∧
    generateRWCopyVolumeName s t n₁ ≠ generateRWCopyFileMountName s t n₂ :=
  ⟨fun hne h => hne (generateRWCopyVolumeName_inj s t h),
   fun hne h => hne (generateRWCopyFileMountName_inj s t h),
   generateRWCopy_vol_ne_file s t n₁ n₂⟩

theorem minted_name_distinctness_witness :
    generateRWCopyVolumeName "beta" "/work" 1 ≠ generateRWCopyVolumeName "beta" "/work" 2 :=
  (minted_name_distinctness "beta" "/work" 1 2).1 (by decide)

/-- C9, counterexample: the remote URL `"a:b@c:d"` matches the claim's
scp-like wording (its `@` at index 3 is followed by a `:` at index 5 with a
character between them), yet `isNetworkRemoteURL` rejects it — the code
compares the *first* `:` (index 1) against the first `@` — so the remote is
stripped from the prepared copy rather than retained. -/
theorem git_remote_filtering_cex :
    claimNetworkRemoteURL "a:b@c:d" ∧
    isNetworkRemoteURL "a:b@c:d" = false ∧
    syncGitRemotes [("origin", "a:b@c:d")] [] = [] := by
  refine ⟨?_, by decide, ?_⟩
  · exact Or.inr (Or.inr (Or.inr ⟨by decide, 3, 5, rfl, rfl, by omega⟩))
  · simp [syncGitRemotes, show isNetworkRemoteURL "a:b@c:d" = false from by decide]

/-- C9, amended: the prepared copy retains exactly those remotes whose URL
starts with `http://`, `https://` or `ssh://`, or whose *first* `@` is at a
positive index with the *first* `:` more than one position after it; every
other remote, including `file://` and plain local paths, is absent. -/
theorem git_remote_filtering_amended (src dst : List (String × String)) (n u : String) :
    (n, u) ∈ syncGitRemotes src dst ↔ (n, u) ∈ src ∧ amendedNetworkRemoteURL u := by
  rw [syncGitRemotes, List.mem_mergeSort, List.mem_filter,
    ← isNetworkRemoteURL_iff_amended]

/-- C2: Commit-point failure is not compensated — when the container was
created successfully (the create phase returned `ok`), a failing persist of
the sandbox record surfaces the commit error with *no* rollback: the final
state is exactly the post-container-create state, the sandbox store is
untouched, the container remains, and a successful persist would have
differed only by the saved sandbox record. -/
theorem commit_point_failure_not_compensated (cfg : CreateCfg) (s0 s : WorldState)
    (lg : Ledger) (rms : List MountBinding)
    (hname : SbStore.get s0.sandboxes cfg.name = none)
    (hprompt : ((cfg.mounts ≠ [] ∨ cfg.volumeMounts ≠ []) ∧ !cfg.yes) →
               promptForConfirmation cfg.stdin = some true)
    (hphase : createPhase cfg s0 = .ok s lg rms)
    (hfail : cfg.finalSaveOk = false) :
    runCreate cfg s0 = (.failed .commitErr, s) ∧
    s.sandboxes = s0.sandboxes ∧
    cfg.name ∈ s.containers ∧
    runCreate { cfg with finalSaveOk := true } s0 =
      (.created,
        { s with sandboxes := SbStore.save s.sandboxes (mkSandboxInfo cfg rms) }) := by
  have hframe := createPhase_ok_frame cfg s0 s lg rms hphase
  have hrun : ∀ (b : Bool), runCreate { cfg with finalSaveOk := b } s0 =
      (if !b then (.failed .commitErr, s)
       else (.created,
        { s with sandboxes := SbStore.save s.sandboxes (mkSandboxInfo cfg rms) })) := by
    intro b
    rw [runCreate]
    simp only [hname, Option.isSome_none]
    rw [if_neg (by simp)]
    have hphase' : createPhase { cfg with finalSaveOk := b } s0 = .ok s lg rms := hphase
    by_cases hP : (cfg.mounts ≠ [] ∨ cfg.volumeMounts ≠ []) ∧ !cfg.yes
    · rw [if_pos hP, hprompt hP, hphase']; rfl
    · rw [if_neg hP, hphase']; rfl
  have hinfo : mkSandboxInfo { cfg with finalSaveOk := true } rms = mkSandboxInfo cfg rms := rfl
  refine ⟨?_, hframe.1, by rw [hframe.2]; simp, ?_⟩
  · have h : runCreate cfg s0 =
        (if !cfg.finalSaveOk then (.failed .commitErr, s)
         else (.created,
          { s with sandboxes := SbStore.save s.sandboxes (mkSandboxInfo cfg rms) })) :=
      hrun cfg.finalSaveOk
    rw [hfail] at h
    simpa using h
  · have h := hrun true
    simpa [hinfo] using h

theorem commit_point_failure_not_compensated_witness :
    runCreate ⟨"alpha", "docker", "img", "", [], true, [], "/base", [], [], true, "cid",
        "t0", false⟩ ⟨[], [], [], [], [], []⟩
      = (.failed .commitErr, ⟨[], [], [], [], [], ["alpha"]⟩) :=
  (commit_point_failure_not_compensated
    ⟨"alpha", "docker", "img", "", [], true, [], "/base", [], [], true, "cid", "t0", false⟩
    ⟨[], [], [], [], [], []⟩ ⟨[], [], [], [], [], ["alpha"]⟩ Ledger.empty []
    rfl (fun h => absurd h (by decide)) rfl rfl).1

/-- C10: Declined confirmation is side-effect-free — with at least one mount
or volume input and without `--yes`, a `no` answer at the prompt makes the
handler return success (after printing "Aborted.") with the world state —
all three record stores, the docker volumes, the copy directories and the
containers — exactly as before the call. -/
theorem declined_confirmation_side_effect_free (cfg : CreateCfg) (s0 : WorldState)
    (hname : SbStore.get s0.sandboxes cfg.name = none)
    (hmounts : cfg.mounts ≠ [] ∨ cfg.volumeMounts ≠ [])
    (hyes : cfg.yes = false)
    (hno : promptForConfirmation cfg.stdin = some false) :
    runCreate cfg s0 = (.abortedByUser, s0) := by
  rw [runCreate]
  simp only [hname, Option.isSome_none]
  rw [if_neg (by simp)]
  rw [if_pos ⟨hmounts, by simp [hyes]⟩, hno]

theorem declined_confirmation_side_effect_free_witness :
    runCreate ⟨"alpha", "docker", "img", "", [], false, ["n"], "/base",
        [(⟨"bind", "/a", "", "/x", "ro", ""⟩,
          ⟨.dir, 0, "t0", true, true, true, true, true⟩)], [], true, "cid", "t0", true⟩
      ⟨[], [], [], [], [], []⟩
      = (.abortedByUser, ⟨[], [], [], [], [], []⟩) :=
  declined_confirmation_side_effect_free
    ⟨"alpha", "docker", "img", "", [], false, ["n"], "/base",
        [(⟨"bind", "/a", "", "/x", "ro", ""⟩,
          ⟨.dir, 0, "t0", true, true, true, true, true⟩)], [], true, "cid", "t0", true⟩
    ⟨[], [], [], [], [], []⟩ rfl (by left; decide) rfl rfl

/-- C4: Unique targets — refuted on the code.  `validateMountTargets` enters
every bind-mount target into `seen` without checking it, so only
volume-attach targets are checked for duplication; a user `--mount` whose
target collides with an injected agent-config mount (both bind-form) passes
validation, and the accepted create call carries two bind mounts with the
same container target `/home/amika/.claude`.  The repository's own design
document (part_006) requires a duplicate-target error in exactly this case,
so this is a bug in `validateMountTargets`, not in the claim. -/
theorem unique_targets_bypassed_for_injected_mounts :
    assembleCreateMounts id ["/tmp/x:/home/amika/.claude:ro"] []
        none [⟨"bind", "/home/user/.claude", "", "/home/amika/.claude", "rwcopy", ""⟩]
      = .ok ([⟨"bind", "/tmp/x", "", "/home/amika/.claude", "ro", ""⟩,
              ⟨"bind", "/home/user/.claude", "", "/home/amika/.claude", "rwcopy", ""⟩], []) ∧
    ¬ ([⟨"bind", "/tmp/x", "", "/home/amika/.claude", "ro", ""⟩,
        (⟨"bind", "/home/user/.claude", "", "/home/amika/.claude", "rwcopy", ""⟩ :
          MountBinding)].map (fun m => m.target)
        ++ ([] : List MountBinding).map (fun m => m.target)).Nodup := by
  constructor
  · rfl
  · decide

theorem map_key_upsertBy {α : Type} (key : α → String) (l : List α) (r : α)
    (h : ∃ x ∈ l, key x = key r) :
    (upsertBy key l r).map key = l.map key := by
  induction l with
  | nil => simp at h
  | cons a rest ih =>
    by_cases ha : key a = key r
    · rw [upsertBy, if_pos ha]
      simp [ha]
    · rw [upsertBy, if_neg ha]
      rcases h with ⟨x, hx, hk⟩
      rcases List.mem_cons.mp hx with rfl | hx'
      · exact absurd hk ha
      · simp [ih ⟨x, hx', hk⟩]

theorem find?_upsertBy_ne {α : Type} (key : α → String) (l : List α) (r : α) (n : String)
    (hne : key r ≠ n) :
    (upsertBy key l r).find? (fun v => key v = n) = l.find? (fun v => key v = n) := by
  induction l with
  | nil => simp [upsertBy, List.find?, hne]
  | cons a rest ih =>
    by_cases ha : key a = key r
    · rw [upsertBy, if_pos ha]
      rw [List.find?_cons_of_neg _ (by simpa using hne),
        List.find?_cons_of_neg _ (by simp [ha, hne])]
    · rw [upsertBy, if_neg ha]
      by_cases han : key a = n
      · rw [List.find?_cons_of_pos _ (by simpa using han),
          List.find?_cons_of_pos _ (by simpa using han)]
      · rw [List.find?_cons_of_neg _ (by simpa using han),
          List.find?_cons_of_neg _ (by simpa using han)]
        exact ih

theorem find?_filter_key_ne {α : Type} (key : α → String) (l : List α) (m n : String)
    (hne : m ≠ n) :
    (l.filter (fun v => key v ≠ m)).find? (fun v => key v = n) =
      l.find? (fun v => key v = n) := by
  induction l with
  | nil => rfl
  | cons a rest ih =>
    by_cases han : key a = n
    · have ham : key a ≠ m := by rw [han]; exact fun h => hne h.symm
      rw [List.filter_cons_of_pos (by simpa using ham),
        List.find?_cons_of_pos _ (by simpa using han),
        List.find?_cons_of_pos _ (by simpa using han)]
    · by_cases ham : key a = m
      · rw [List.filter_cons_of_neg (by simpa using ham),
          List.find?_cons_of_neg _ (by simpa using han)]
        exact ih
      · rw [List.filter_cons_of_pos (by simpa using ham),
          List.find?_cons_of_neg _ (by simpa using han),
          List.find?_cons_of_neg _ (by simpa using han)]
        exact ih

theorem find?_eq_of_nodup {α : Type} (key : α → String) (l : List α)
    (hnd : (l.map key).Nodup) (v : α) (hv : v ∈ l) :
    l.find? (fun x => key x = key v) = some v := by
  induction l with
  | nil => cases hv
  | cons a rest ih =>
    rcases List.mem_cons.mp hv with rfl | hv'
    · rw [List.find?_cons_of_pos _ (by simp)]
    · have hka : key a ≠ key v := by
        intro he
        rw [List.map_cons, List.nodup_cons] at hnd
        exact hnd.1 (he ▸ List.mem_map_of_mem key hv')
      rw [List.find?_cons_of_neg _ (by simpa using hka)]
      rw [List.map_cons, List.nodup_cons] at hnd
      exact ih hnd.2 hv'

theorem filter_ne_nil_of_all (refs : List String) (name : String)
    (h : refs.all (fun x => x = name) = true) :
    refs.filter (fun r => r ≠ name) = [] := by
  induction refs with
  | nil => rfl
  | cons a rest ih =>
    rw [List.all_cons, Bool.and_eq_true] at h
    have ha : a = name := by simpa using h.1
    rw [List.filter_cons_of_neg (by simp [ha])]
    exact ih h.2

theorem filter_ne_ne_nil_of_not_all (refs : List String) (name : String)
    (h : ¬ refs.all (fun x => x = name) = true) :
    refs.filter (fun r => r ≠ name) ≠ [] := by
  rw [List.all_eq_true] at h
  push_neg at h
  obtain ⟨r, hr, hne⟩ := h
  intro hnil
  have : r ∈ refs.filter (fun x => x ≠ name) :=
    List.mem_filter.mpr ⟨hr, by simpa using hne⟩
  rw [hnil] at this
  cases this

theorem removeSandboxRef_eq (l : List VolumeInfo) (n sb : String) (info : VolumeInfo)
    (hget : VolStore.get l n = some info) :
    VolStore.removeSandboxRef l n sb =
      some (VolStore.save l
        { info with sandboxRefs := info.sandboxRefs.filter (fun r => r ≠ sb) }) := by
  rw [VolStore.removeSandboxRef, hget, Option.map_some']

theorem removeSandboxRef_names (l : List VolumeInfo) (n sb : String)
    (l' : List VolumeInfo) (h : VolStore.removeSandboxRef l n sb = some l') :
    l'.map VolumeInfo.name = l.map VolumeInfo.name := by
  rw [VolStore.removeSandboxRef] at h
  cases hget : VolStore.get l n with
  | none => rw [hget] at h; cases h
  | some info =>
    rw [hget, Option.map_some'] at h
    injection h with h'
    subst h'
    apply map_key_upsertBy
    exact ⟨info, List.mem_of_find?_eq_some hget, rfl⟩

theorem cleanupVolumesLoop_keep (name : String) :
    ∀ (l : List VolumeInfo) (st : WorldState),
      (cleanupVolumesLoop name false l st).1.volumes.map VolumeInfo.name =
          st.volumes.map VolumeInfo.name ∧
      (cleanupVolumesLoop name false l st).1.dockerVolumes = st.dockerVolumes ∧
      (cleanupVolumesLoop name false l st).1.fileMounts = st.fileMounts ∧
      (cleanupVolumesLoop name false l st).1.dirs = st.dirs ∧
      (cleanupVolumesLoop name false l st).1.sandboxes = st.sandboxes := by
  intro l
  induction l with
  | nil => intro st; exact ⟨rfl, rfl, rfl, rfl, rfl⟩
  | cons v rest ih =>
    intro st
    rw [cleanupVolumesLoop]
    cases hrm : VolStore.removeSandboxRef st.volumes v.name name with
    | none =>
      simp only []
      exact ih st
    | some vols =>
      simp only [Bool.not_false, if_pos rfl]
      have hnames := removeSandboxRef_names _ _ _ _ hrm
      obtain ⟨a1, a2, a3, a4, a5⟩ := ih { st with volumes := vols }
      exact ⟨a1.trans hnames, a2, a3, a4, a5⟩

theorem fmRemoveSandboxRef_eq (l : List FileMountInfo) (n sb : String)
    (info : FileMountInfo) (hget : FMStore.get l n = some info) :
    FMStore.removeSandboxRef l n sb =
      some (FMStore.save l
        { info with sandboxRefs := info.sandboxRefs.filter (fun r => r ≠ sb) }) := by
  rw [FMStore.removeSandboxRef, hget, Option.map_some']

theorem fmRemoveSandboxRef_names (l : List FileMountInfo) (n sb : String)
    (l' : List FileMountInfo) (h : FMStore.removeSandboxRef l n sb = some l') :
    l'.map FileMountInfo.name = l.map FileMountInfo.name := by
  rw [FMStore.removeSandboxRef] at h
  cases hget : FMStore.get l n with
  | none => rw [hget] at h; cases h
  | some info =>
    rw [hget, Option.map_some'] at h
    injection h with h'
    subst h'
    apply map_key_upsertBy
    exact ⟨info, List.mem_of_find?_eq_some hget, rfl⟩

theorem cleanupFileMountsLoop_keep (name : String) :
    ∀ (l : List FileMountInfo) (st : WorldState),
      (cleanupFileMountsLoop name false l st).1.fileMounts.map FileMountInfo.name =
          st.fileMounts.map FileMountInfo.name ∧
      (cleanupFileMountsLoop name false l st).1.dirs = st.dirs ∧
      (cleanupFileMountsLoop name false l st).1.volumes = st.volumes ∧
      (cleanupFileMountsLoop name false l st).1.dockerVolumes = st.dockerVolumes ∧
      (cleanupFileMountsLoop name false l st).1.sandboxes = st.sandboxes := by
  intro l
  induction l with
  | nil => intro st; exact ⟨rfl, rfl, rfl, rfl, rfl⟩
  | cons fm rest ih =>
    intro st
    rw [cleanupFileMountsLoop]
    cases hrm : FMStore.removeSandboxRef st.fileMounts fm.name name with
    | none =>
      simp only []
      exact ih st
    | some fms =>
      simp only [Bool.not_false, if_pos rfl]
      have hnames := fmRemoveSandboxRef_names _ _ _ _ hrm
      obtain ⟨a1, a2, a3, a4, a5⟩ := ih { st with fileMounts := fms }
      exact ⟨a1.trans hnames, a2, a3, a4, a5⟩

theorem names_sublist_remove (l : List VolumeInfo) (n : String) :
    List.Sublist ((VolStore.remove l n).map VolumeInfo.name) (l.map VolumeInfo.name) :=
  (List.filter_sublist l).map VolumeInfo.name

theorem cleanupVolumesLoop_delete (name : String) :
    ∀ (l : List VolumeInfo) (st : WorldState),
      (st.volumes.map VolumeInfo.name).Nodup →
      (∀ v ∈ l, VolStore.get st.volumes v.name = some v) →
      ((l.map VolumeInfo.name).Nodup) →
      (∀ n, n ∉ st.volumes.map VolumeInfo.name →
          n ∉ (cleanupVolumesLoop name true l st).1.volumes.map VolumeInfo.name) ∧
      (∀ n, n ∉ st.dockerVolumes → n ∉ (cleanupVolumesLoop name true l st).1.dockerVolumes) ∧
      (cleanupVolumesLoop name true l st).1.fileMounts = st.fileMounts ∧
      (cleanupVolumesLoop name true l st).1.dirs = st.dirs ∧
      (cleanupVolumesLoop name true l st).1.sandboxes = st.sandboxes ∧
      (∀ v ∈ l, v.sandboxRefs.all (fun r => r = name) = true →
          v.name ∉ (cleanupVolumesLoop name true l st).1.volumes.map VolumeInfo.name ∧
          v.name ∉ (cleanupVolumesLoop name true l st).1.dockerVolumes) := by
  intro l
  induction l with
  | nil =>
    intro st _ _ _
    exact ⟨fun n h => h, fun n h => h, rfl, rfl, rfl, fun v hv => absurd hv (by simp)⟩
  | cons v rest ih =>
    intro st hndst hget hndl
    have hgv : VolStore.get st.volumes v.name = some v := hget v (List.mem_cons_self _ _)
    have hrm := removeSandboxRef_eq st.volumes v.name name v hgv
    have hvmem : v ∈ st.volumes := List.mem_of_find?_eq_some hgv
    have hsavenames : (VolStore.save st.volumes
        { v with sandboxRefs := v.sandboxRefs.filter (fun r => r ≠ name) }).map
          VolumeInfo.name = st.volumes.map VolumeInfo.name :=
      map_key_upsertBy _ _ _ ⟨v, hvmem, rfl⟩
    have hget1 : VolStore.get (VolStore.save st.volumes
        { v with sandboxRefs := v.sandboxRefs.filter (fun r => r ≠ name) }) v.name =
        some { v with sandboxRefs := v.sandboxRefs.filter (fun r => r ≠ name) } :=
      find?_upsertBy VolumeInfo.name st.volumes
        { v with sandboxRefs := v.sandboxRefs.filter (fun r => r ≠ name) }
    rw [cleanupVolumesLoop, hrm]
    simp only [Bool.not_true, Bool.false_eq_true, if_false]
    rw [List.map_cons, List.nodup_cons] at hndl
    by_cases hexc : v.sandboxRefs.all (fun r => r = name) = true
    · have hrefs : v.sandboxRefs.filter (fun r => r ≠ name) = [] :=
        filter_ne_nil_of_all _ _ hexc
      have hinuse : VolStore.isInUse (VolStore.save st.volumes
          { v with sandboxRefs := v.sandboxRefs.filter (fun r => r ≠ name) }) v.name =
          some false := by
        rw [VolStore.isInUse, hget1, Option.map_some', hrefs]
        rfl
      rw [hinuse]
      have hst2names : List.Sublist ((VolStore.remove (VolStore.save st.volumes
          { v with sandboxRefs := v.sandboxRefs.filter (fun r => r ≠ name) })
            v.name).map VolumeInfo.name) (st.volumes.map VolumeInfo.name) := by
        have h := names_sublist_remove (VolStore.save st.volumes
          { v with sandboxRefs := v.sandboxRefs.filter (fun r => r ≠ name) }) v.name
        rw [hsavenames] at h
        exact h
      have hnd2 : ((VolStore.remove (VolStore.save st.volumes
          { v with sandboxRefs := v.sandboxRefs.filter (fun r => r ≠ name) })
            v.name).map VolumeInfo.name).Nodup := hndst.sublist hst2names
      have hget2 : ∀ w ∈ rest, VolStore.get (VolStore.remove (VolStore.save st.volumes
          { v with sandboxRefs := v.sandboxRefs.filter (fun r => r ≠ name) })
            v.name) w.name = some w := by
        intro w hw
        have hwne : v.name ≠ w.name := by
          intro he
          exact hndl.1 (he ▸ List.mem_map_of_mem VolumeInfo.name hw)
        show (VolStore.remove _ v.name).find? (fun x => x.name = w.name) = some w
        rw [VolStore.remove, find?_filter_key_ne VolumeInfo.name _ v.name w.name hwne]
        rw [show (VolStore.save st.volumes
            { v with sandboxRefs := v.sandboxRefs.filter (fun r => r ≠ name) }).find?
              (fun x => x.name = w.name) =
            st.volumes.find? (fun x => x.name = w.name) from
          find?_upsertBy_ne VolumeInfo.name st.volumes _ w.name hwne]
        exact hget w (List.mem_cons_of_mem _ hw)
      obtain ⟨m1, m2, f1, f2, f3, hdel⟩ := ih
        { st with
          dockerVolumes := st.dockerVolumes.filter (fun d => d ≠ v.name),
          volumes := VolStore.remove (VolStore.save st.volumes
            { v with sandboxRefs := v.sandboxRefs.filter (fun r => r ≠ name) }) v.name }
        hnd2 hget2 hndl.2
      have hvout : v.name ∉ (VolStore.remove (VolStore.save st.volumes
          { v with sandboxRefs := v.sandboxRefs.filter (fun r => r ≠ name) })
            v.name).map VolumeInfo.name := by
        intro hmem
        obtain ⟨w, hw, hwn⟩ := List.mem_map.mp hmem
        have h2 := (List.mem_filter.mp hw).2
        rw [hwn] at h2
        simp at h2
      have hvoutd : v.name ∉ st.dockerVolumes.filter (fun d => d ≠ v.name) := by
        intro hmem
        have h2 := (List.mem_filter.mp hmem).2
        simp at h2
      refine ⟨?_, ?_, f1, f2, f3, ?_⟩
      · intro n hn
        exact m1 n (fun hmem => hn (hst2names.subset hmem))
      · intro n hn
        exact m2 n (fun hmem => hn ((List.filter_sublist _).subset hmem))
      · intro w hw hexcw
        rcases List.mem_cons.mp hw with rfl | hw'
        · exact ⟨m1 w.name hvout, m2 w.name hvoutd⟩
        · exact hdel w hw' hexcw
    · have hrefs : v.sandboxRefs.filter (fun r => r ≠ name) ≠ [] :=
        filter_ne_ne_nil_of_not_all _ _ hexc
      have hinuse : VolStore.isInUse (VolStore.save st.volumes
          { v with sandboxRefs := v.sandboxRefs.filter (fun r => r ≠ name) }) v.name =
          some true := by
        rw [VolStore.isInUse, hget1, Option.map_some']
        have : decide (0 < ({ v with
            sandboxRefs := v.sandboxRefs.filter (fun r => r ≠ name) } :
              VolumeInfo).sandboxRefs.length) = true :=
          decide_eq_true (List.length_pos.mpr hrefs)
        rw [this]
      rw [hinuse]
      have hnd1 : ((VolStore.save st.volumes
          { v with sandboxRefs := v.sandboxRefs.filter (fun r => r ≠ name) }).map
            VolumeInfo.name).Nodup := by
        rw [hsavenames]; exact hndst
      have hget2 : ∀ w ∈ rest, VolStore.get (VolStore.save st.volumes
          { v with sandboxRefs := v.sandboxRefs.filter (fun r => r ≠ name) }) w.name =
          some w := by
        intro w hw
        have hwne : v.name ≠ w.name := by
          intro he
          exact hndl.1 (he ▸ List.mem_map_of_mem VolumeInfo.name hw)
        show (VolStore.save _ _).find? (fun x => x.name = w.name) = some w
        rw [show (VolStore.save st.volumes
            { v with sandboxRefs := v.sandboxRefs.filter (fun r => r ≠ name) }).find?
              (fun x => x.name = w.name) =
            st.volumes.find? (fun x => x.name = w.name) from
          find?_upsertBy_ne VolumeInfo.name st.volumes _ w.name hwne]
        exact hget w (List.mem_cons_of_mem _ hw)
      obtain ⟨m1, m2, f1, f2, f3, hdel⟩ := ih
        { st with volumes := VolStore.save st.volumes { v with sandboxRefs := v.sandboxRefs.filter (fun r => r ≠ name) } }
        hnd1 hget2 hndl.2
      refine ⟨?_, m2, f1, f2, f3, ?_⟩
      · intro n hn
        refine m1 n (fun hmem => hn ?_)
        have hmem2 : n ∈ (VolStore.save st.volumes
            { v with sandboxRefs := v.sandboxRefs.filter (fun r => r ≠ name) }).map
              VolumeInfo.name := hmem
        rw [hsavenames] at hmem2
        exact hmem2
      · intro w hw hexcw
        rcases List.mem_cons.mp hw with rfl | hw'
        · exact absurd hexcw hexc
        · exact hdel w hw' hexcw

theorem fm_names_sublist_remove (l : List FileMountInfo) (n : String) :
    List.Sublist ((FMStore.remove l n).map FileMountInfo.name) (l.map FileMountInfo.name) :=
  (List.filter_sublist l).map FileMountInfo.name

theorem cleanupFileMountsLoop_delete (name : String) :
    ∀ (l : List FileMountInfo) (st : WorldState),
      (st.fileMounts.map FileMountInfo.name).Nodup →
      (∀ fm ∈ l, FMStore.get st.fileMounts fm.name = some fm) →
      ((l.map FileMountInfo.name).Nodup) →
      (∀ n, n ∉ st.fileMounts.map FileMountInfo.name →
          n ∉ (cleanupFileMountsLoop name true l st).1.fileMounts.map FileMountInfo.name) ∧
      (∀ d, d ∉ st.dirs → d ∉ (cleanupFileMountsLoop name true l st).1.dirs) ∧
      (cleanupFileMountsLoop name true l st).1.volumes = st.volumes ∧
      (cleanupFileMountsLoop name true l st).1.dockerVolumes = st.dockerVolumes ∧
      (cleanupFileMountsLoop name true l st).1.sandboxes = st.sandboxes ∧
      (∀ fm ∈ l, fm.sandboxRefs.all (fun r => r = name) = true →
          fm.name ∉ (cleanupFileMountsLoop name true l st).1.fileMounts.map FileMountInfo.name ∧
          goFilepathDir fm.copyPath ∉ (cleanupFileMountsLoop name true l st).1.dirs) := by
  intro l
  induction l with
  | nil =>
    intro st _ _ _
    exact ⟨fun n h => h, fun d h => h, rfl, rfl, rfl, fun fm hfm => absurd hfm (by simp)⟩
  | cons fm rest ih =>
    intro st hndst hget hndl
    have hgv : FMStore.get st.fileMounts fm.name = some fm := hget fm (List.mem_cons_self _ _)
    have hrm := fmRemoveSandboxRef_eq st.fileMounts fm.name name fm hgv
    have hvmem : fm ∈ st.fileMounts := List.mem_of_find?_eq_some hgv
    have hsavenames : (FMStore.save st.fileMounts
        { fm with sandboxRefs := fm.sandboxRefs.filter (fun r => r ≠ name) }).map
          FileMountInfo.name = st.fileMounts.map FileMountInfo.name :=
      map_key_upsertBy _ _ _ ⟨fm, hvmem, rfl⟩
    have hget1 : FMStore.get (FMStore.save st.fileMounts
        { fm with sandboxRefs := fm.sandboxRefs.filter (fun r => r ≠ name) }) fm.name =
        some { fm with sandboxRefs := fm.sandboxRefs.filter (fun r => r ≠ name) } :=
      find?_upsertBy FileMountInfo.name st.fileMounts
        { fm with sandboxRefs := fm.sandboxRefs.filter (fun r => r ≠ name) }
    rw [cleanupFileMountsLoop, hrm]
    simp only [Bool.not_true, Bool.false_eq_true, if_false]
    rw [List.map_cons, List.nodup_cons] at hndl
    by_cases hexc : fm.sandboxRefs.all (fun r => r = name) = true
    · have hrefs : fm.sandboxRefs.filter (fun r => r ≠ name) = [] :=
        filter_ne_nil_of_all _ _ hexc
      have hinuse : FMStore.isInUse (FMStore.save st.fileMounts
          { fm with sandboxRefs := fm.sandboxRefs.filter (fun r => r ≠ name) }) fm.name =
          some false := by
        rw [FMStore.isInUse, hget1, Option.map_some', hrefs]
        rfl
      rw [hinuse]
      have hst2names : List.Sublist ((FMStore.remove (FMStore.save st.fileMounts
          { fm with sandboxRefs := fm.sandboxRefs.filter (fun r => r ≠ name) })
            fm.name).map FileMountInfo.name) (st.fileMounts.map FileMountInfo.name) := by
        have h := fm_names_sublist_remove (FMStore.save st.fileMounts
          { fm with sandboxRefs := fm.sandboxRefs.filter (fun r => r ≠ name) }) fm.name
        rw [hsavenames] at h
        exact h
      have hnd2 : ((FMStore.remove (FMStore.save st.fileMounts
          { fm with sandboxRefs := fm.sandboxRefs.filter (fun r => r ≠ name) })
            fm.name).map FileMountInfo.name).Nodup := hndst.sublist hst2names
      have hget2 : ∀ w ∈ rest, FMStore.get (FMStore.remove (FMStore.save st.fileMounts
          { fm with sandboxRefs := fm.sandboxRefs.filter (fun r => r ≠ name) })
            fm.name) w.name = some w := by
        intro w hw
        have hwne : fm.name ≠ w.name := by
          intro he
          exact hndl.1 (he ▸ List.mem_map_of_mem FileMountInfo.name hw)
        show (FMStore.remove _ fm.name).find? (fun x => x.name = w.name) = some w
        rw [FMStore.remove, find?_filter_key_ne FileMountInfo.name _ fm.name w.name hwne]
        rw [show (FMStore.save st.fileMounts
            { fm with sandboxRefs := fm.sandboxRefs.filter (fun r => r ≠ name) }).find?
              (fun x => x.name = w.name) =
            st.fileMounts.find? (fun x => x.name = w.name) from
          find?_upsertBy_ne FileMountInfo.name st.fileMounts _ w.name hwne]
        exact hget w (List.mem_cons_of_mem _ hw)
      obtain ⟨m1, m2, f1, f2, f3, hdel⟩ := ih
        { st with
          dirs := st.dirs.filter (fun d => d ≠ goFilepathDir fm.copyPath),
          fileMounts := FMStore.remove (FMStore.save st.fileMounts
            { fm with sandboxRefs := fm.sandboxRefs.filter (fun r => r ≠ name) }) fm.name }
        hnd2 hget2 hndl.2
      have hvout : fm.name ∉ (FMStore.remove (FMStore.save st.fileMounts
          { fm with sandboxRefs := fm.sandboxRefs.filter (fun r => r ≠ name) })
            fm.name).map FileMountInfo.name := by
        intro hmem
        obtain ⟨w, hw, hwn⟩ := List.mem_map.mp hmem
        have h2 := (List.mem_filter.mp hw).2
        rw [hwn] at h2
        simp at h2
      have hvoutd : goFilepathDir fm.copyPath ∉
          st.dirs.filter (fun d => d ≠ goFilepathDir fm.copyPath) := by
        intro hmem
        have h2 := (List.mem_filter.mp hmem).2
        simp at h2
      refine ⟨?_, ?_, f1, f2, f3, ?_⟩
      · intro n hn
        exact m1 n (fun hmem => hn (hst2names.subset hmem))
      · intro d hd
        exact m2 d (fun hmem => hd ((List.filter_sublist _).subset hmem))
      · intro w hw hexcw
        rcases List.mem_cons.mp hw with rfl | hw'
        · exact ⟨m1 w.name hvout, m2 (goFilepathDir w.copyPath) hvoutd⟩
        · exact hdel w hw' hexcw
    · have hrefs : fm.sandboxRefs.filter (fun r => r ≠ name) ≠ [] :=
        filter_ne_ne_nil_of_not_all _ _ hexc
      have hinuse : FMStore.isInUse (FMStore.save st.fileMounts
          { fm with sandboxRefs := fm.sandboxRefs.filter (fun r => r ≠ name) }) fm.name =
          some true := by
        rw [FMStore.isInUse, hget1, Option.map_some']
        have hlen : decide (0 < ({ fm with
            sandboxRefs := fm.sandboxRefs.filter (fun r => r ≠ name) } :
              FileMountInfo).sandboxRefs.length) = true :=
          decide_eq_true (List.length_pos.mpr hrefs)
        rw [hlen]
      rw [hinuse]
      have hnd1 : ((FMStore.save st.fileMounts
          { fm with sandboxRefs := fm.sandboxRefs.filter (fun r => r ≠ name) }).map
            FileMountInfo.name).Nodup := by
        rw [hsavenames]; exact hndst
      have hget2 : ∀ w ∈ rest, FMStore.get (FMStore.save st.fileMounts
          { fm with sandboxRefs := fm.sandboxRefs.filter (fun r => r ≠ name) }) w.name =
          some w := by
        intro w hw
        have hwne : fm.name ≠ w.name := by
          intro he
          exact hndl.1 (he ▸ List.mem_map_of_mem FileMountInfo.name hw)
        show (FMStore.save _ _).find? (fun x => x.name = w.name) = some w
        rw [show (FMStore.save st.fileMounts
            { fm with sandboxRefs := fm.sandboxRefs.filter (fun r => r ≠ name) }).find?
              (fun x => x.name = w.name) =
            st.fileMounts.find? (fun x => x.name = w.name) from
          find?_upsertBy_ne FileMountInfo.name st.fileMounts _ w.name hwne]
        exact hget w (List.mem_cons_of_mem _ hw)
      obtain ⟨m1, m2, f1, f2, f3, hdel⟩ := ih
        { st with fileMounts := FMStore.save st.fileMounts { fm with sandboxRefs := fm.sandboxRefs.filter (fun r => r ≠ name) } }
        hnd1 hget2 hndl.2
      refine ⟨?_, m2, f1, f2, f3, ?_⟩
      · intro n hn
        refine m1 n (fun hmem => hn ?_)
        have hmem2 : n ∈ (FMStore.save st.fileMounts
            { fm with sandboxRefs := fm.sandboxRefs.filter (fun r => r ≠ name) }).map
              FileMountInfo.name := hmem
        rw [hsavenames] at hmem2
        exact hmem2
      · intro w hw hexcw
        rcases List.mem_cons.mp hw with rfl | hw'
        · exact absurd hexcw hexc
        · exact hdel w hw' hexcw

theorem cleanup_both_delete (name : String) (st : WorldState)
    (hndv : (st.volumes.map VolumeInfo.name).Nodup)
    (hndf : (st.fileMounts.map FileMountInfo.name).Nodup) :
    (∀ v ∈ st.volumes, v.sandboxRefs.contains name = true →
        v.sandboxRefs.all (fun r => r = name) = true →
        v.name ∉ (cleanupSandboxFileMounts (cleanupSandboxVolumes st name true).1
            name true).1.volumes.map VolumeInfo.name ∧
        v.name ∉ (cleanupSandboxFileMounts (cleanupSandboxVolumes st name true).1
            name true).1.dockerVolumes) ∧
    (∀ fm ∈ st.fileMounts, fm.sandboxRefs.contains name = true →
        fm.sandboxRefs.all (fun r => r = name) = true →
        fm.name ∉ (cleanupSandboxFileMounts (cleanupSandboxVolumes st name true).1
            name true).1.fileMounts.map FileMountInfo.name ∧
        goFilepathDir fm.copyPath ∉ (cleanupSandboxFileMounts
            (cleanupSandboxVolumes st name true).1 name true).1.dirs) := by
  have hgetv : ∀ v ∈ VolStore.volumesForSandbox st.volumes name,
      VolStore.get st.volumes v.name = some v := by
    intro v hv
    exact find?_eq_of_nodup VolumeInfo.name st.volumes hndv v
      ((List.filter_sublist _).subset hv)
  have hndlv : ((VolStore.volumesForSandbox st.volumes name).map VolumeInfo.name).Nodup :=
    hndv.sublist ((List.filter_sublist st.volumes).map VolumeInfo.name)
  obtain ⟨vm1, vm2, vf1, vf2, vf3, vdel⟩ :=
    cleanupVolumesLoop_delete name (VolStore.volumesForSandbox st.volumes name) st
      hndv hgetv hndlv
  simp only [cleanupSandboxVolumes, cleanupSandboxFileMounts]
  rw [vf1]
  have hndf2 : ((cleanupVolumesLoop name true (VolStore.volumesForSandbox st.volumes name)
      st).1.fileMounts.map FileMountInfo.name).Nodup := by
    rw [vf1]; exact hndf
  have hgetf : ∀ fm ∈ FMStore.fileMountsForSandbox st.fileMounts name,
      FMStore.get (cleanupVolumesLoop name true
        (VolStore.volumesForSandbox st.volumes name) st).1.fileMounts fm.name = some fm := by
    intro fm hfm
    rw [vf1]
    exact find?_eq_of_nodup FileMountInfo.name st.fileMounts hndf fm
      ((List.filter_sublist _).subset hfm)
  have hndlf : ((FMStore.fileMountsForSandbox st.fileMounts name).map
      FileMountInfo.name).Nodup :=
    hndf.sublist ((List.filter_sublist st.fileMounts).map FileMountInfo.name)
  obtain ⟨fm1, fm2, ff1, ff2, ff3, fdel⟩ :=
    cleanupFileMountsLoop_delete name (FMStore.fileMountsForSandbox st.fileMounts name)
      (cleanupVolumesLoop name true (VolStore.volumesForSandbox st.volumes name) st).1
      hndf2 hgetf hndlf
  constructor
  · intro v hv hc hall
    have hvl : v ∈ VolStore.volumesForSandbox st.volumes name :=
      List.mem_filter.mpr ⟨hv, hc⟩
    obtain ⟨h1, h2⟩ := vdel v hvl hall
    rw [ff1, ff2]
    exact ⟨h1, h2⟩
  · intro fm hfm hc hall
    have hfml : fm ∈ FMStore.fileMountsForSandbox st.fileMounts name :=
      List.mem_filter.mpr ⟨hfm, hc⟩
    exact fdel fm hfml hall

theorem runDelete_state (cfg : DeleteCfg) (s0 : WorldState) (info : Info) (dv : Bool)
    (hflag : ¬(cfg.deleteVolumesSet ∧ cfg.keepVolumesSet))
    (hsb : SbStore.get s0.sandboxes cfg.name = some info)
    (hres : resolveDeleteVolumes s0 cfg.name cfg.deleteVolumesSet cfg.keepVolumesSet
        cfg.stdin = some dv)
    (hcont : ¬(info.provider = "docker" ∧ !cfg.containerRemoveOk)) :
    (runDelete cfg s0).2.1 =
      { (cleanupSandboxFileMounts (cleanupSandboxVolumes
            (if info.provider = "docker" then
              { s0 with containers := s0.containers.filter (fun c => c ≠ cfg.name) }
             else s0) cfg.name dv).1 cfg.name dv).1 with
        sandboxes := SbStore.remove (cleanupSandboxFileMounts (cleanupSandboxVolumes
            (if info.provider = "docker" then
              { s0 with containers := s0.containers.filter (fun c => c ≠ cfg.name) }
             else s0) cfg.name dv).1 cfg.name dv).1.sandboxes cfg.name } := by
  rw [runDelete, if_neg hflag, hsb]
  simp only []
  rw [hres]
  simp only []
  rw [if_neg hcont]
  split <;> split <;> rfl

/-- C3: Exclusive-delete default policy.  With neither `--delete-volumes` nor
`--keep-volumes` set, the resolved delete-backing decision is `true` iff some
backing store (directory-volume or file-mount) referenced by the sandbox is
exclusively referenced by it and the prompt answers yes; on a confirmed
delete, `runDelete` removes every exclusively-referenced store's record and
physical resource (docker volume / copy directory); on a declined (or
no-exclusive) resolution every record and physical resource survives. -/
theorem exclusive_delete_default_policy (cfg : DeleteCfg) (s0 : WorldState) (info : Info)
    (hdf : cfg.deleteVolumesSet = false) (hkf : cfg.keepVolumesSet = false)
    (hsb : SbStore.get s0.sandboxes cfg.name = some info)
    (hcont : ¬(info.provider = "docker" ∧ !cfg.containerRemoveOk))
    (hndv : (s0.volumes.map VolumeInfo.name).Nodup)
    (hndf : (s0.fileMounts.map FileMountInfo.name).Nodup) :
    (resolveDeleteVolumes s0 cfg.name cfg.deleteVolumesSet cfg.keepVolumesSet cfg.stdin
        = some true ↔
      exclusiveStores s0 cfg.name ≠ [] ∧
        promptForConfirmation cfg.stdin = some true) ∧
    (resolveDeleteVolumes s0 cfg.name cfg.deleteVolumesSet cfg.keepVolumesSet cfg.stdin
        = some true →
      (∀ v ∈ s0.volumes, v.sandboxRefs.contains cfg.name = true →
          v.sandboxRefs.all (fun r => r = cfg.name) = true →
          v.name ∉ (runDelete cfg s0).2.1.volumes.map VolumeInfo.name ∧
          v.name ∉ (runDelete cfg s0).2.1.dockerVolumes) ∧
      (∀ fm ∈ s0.fileMounts, fm.sandboxRefs.contains cfg.name = true →
          fm.sandboxRefs.all (fun r => r = cfg.name) = true →
          fm.name ∉ (runDelete cfg s0).2.1.fileMounts.map FileMountInfo.name ∧
          goFilepathDir fm.copyPath ∉ (runDelete cfg s0).2.1.dirs)) ∧
    (resolveDeleteVolumes s0 cfg.name cfg.deleteVolumesSet cfg.keepVolumesSet cfg.stdin
        = some false →
      (runDelete cfg s0).2.1.volumes.map VolumeInfo.name
          = s0.volumes.map VolumeInfo.name ∧
      (runDelete cfg s0).2.1.dockerVolumes = s0.dockerVolumes ∧
      (runDelete cfg s0).2.1.fileMounts.map FileMountInfo.name
          = s0.fileMounts.map FileMountInfo.name ∧
      (runDelete cfg s0).2.1.dirs = s0.dirs) := by
  have hflag : ¬(cfg.deleteVolumesSet ∧ cfg.keepVolumesSet) := by simp [hdf]
  have hproj : (if info.provider = "docker" then
        { s0 with containers := s0.containers.filter (fun c => c ≠ cfg.name) }
       else s0).volumes = s0.volumes ∧
      (if info.provider = "docker" then
        { s0 with containers := s0.containers.filter (fun c => c ≠ cfg.name) }
       else s0).fileMounts = s0.fileMounts ∧
      (if info.provider = "docker" then
        { s0 with containers := s0.containers.filter (fun c => c ≠ cfg.name) }
       else s0).dockerVolumes = s0.dockerVolumes ∧
      (if info.provider = "docker" then
        { s0 with containers := s0.containers.filter (fun c => c ≠ cfg.name) }
       else s0).dirs = s0.dirs := by
    split
    · exact ⟨rfl, rfl, rfl, rfl⟩
    · exact ⟨rfl, rfl, rfl, rfl⟩
  refine ⟨?_, ?_, ?_⟩
  · rw [resolveDeleteVolumes, hdf, hkf]
    rw [if_neg (by simp), if_neg (by simp)]
    by_cases hexc : exclusiveStores s0 cfg.name = []
    · rw [if_pos hexc]
      constructor
      · intro h; exact absurd h (by simp)
      · rintro ⟨hne, _⟩; exact absurd hexc hne
    · rw [if_neg hexc]
      exact ⟨fun h => ⟨hexc, h⟩, fun h => h.2⟩
  · intro hres
    have hstate := runDelete_state cfg s0 info true hflag hsb hres hcont
    rw [hstate]
    obtain ⟨hv, hf⟩ := cleanup_both_delete cfg.name
      (if info.provider = "docker" then
        { s0 with containers := s0.containers.filter (fun c => c ≠ cfg.name) }
       else s0)
      (by rw [hproj.1]; exact hndv) (by rw [hproj.2.1]; exact hndf)
    refine ⟨fun v hv0 hc hall => ?_, fun fm hfm0 hc hall => ?_⟩
    · exact hv v (by rw [hproj.1]; exact hv0) hc hall
    · exact hf fm (by rw [hproj.2.1]; exact hfm0) hc hall
  · intro hres
    have hstate := runDelete_state cfg s0 info false hflag hsb hres hcont
    rw [hstate]
    obtain ⟨kv1, kv2, kv3, kv4, kv5⟩ := cleanupVolumesLoop_keep cfg.name
      (VolStore.volumesForSandbox (if info.provider = "docker" then
          { s0 with containers := s0.containers.filter (fun c => c ≠ cfg.name) }
         else s0).volumes cfg.name)
      (if info.provider = "docker" then
        { s0 with containers := s0.containers.filter (fun c => c ≠ cfg.name) }
       else s0)
    obtain ⟨kf1, kf2, kf3, kf4, kf5⟩ := cleanupFileMountsLoop_keep cfg.name
      (FMStore.fileMountsForSandbox (cleanupVolumesLoop cfg.name false
          (VolStore.volumesForSandbox (if info.provider = "docker" then
              { s0 with containers := s0.containers.filter (fun c => c ≠ cfg.name) }
             else s0).volumes cfg.name)
          (if info.provider = "docker" then
            { s0 with containers := s0.containers.filter (fun c => c ≠ cfg.name) }
           else s0)).1.fileMounts cfg.name)
      (cleanupVolumesLoop cfg.name false
          (VolStore.volumesForSandbox (if info.provider = "docker" then
              { s0 with containers := s0.containers.filter (fun c => c ≠ cfg.name) }
             else s0).volumes cfg.name)
          (if info.provider = "docker" then
            { s0 with containers := s0.containers.filter (fun c => c ≠ cfg.name) }
           else s0)).1
    refine ⟨?_, ?_, ?_, ?_⟩
    · exact ((congrArg (List.map VolumeInfo.name) kf3).trans kv1).trans
        (congrArg (List.map VolumeInfo.name) hproj.1)
    · exact (kf4.trans kv2).trans hproj.2.2.1
    · exact (kf1.trans (congrArg (List.map FileMountInfo.name) kv3)).trans
        (congrArg (List.map FileMountInfo.name) hproj.2.1)
    · exact (kf2.trans kv4).trans hproj.2.2.2

theorem exclusive_delete_default_policy_witness :
    "v" ∉ (runDelete ⟨"delta", false, false, ["y"], true⟩ W3).2.1.volumes.map
        VolumeInfo.name ∧
    "v" ∉ (runDelete ⟨"delta", false, false, ["y"], true⟩ W3).2.1.dockerVolumes ∧
    "f" ∉ (runDelete ⟨"delta", false, false, ["y"], true⟩ W3).2.1.fileMounts.map
        FileMountInfo.name ∧
    goFilepathDir "/cp/f/a.txt" ∉ (runDelete ⟨"delta", false, false, ["y"], true⟩ W3).2.1.dirs := by
  have h := exclusive_delete_default_policy ⟨"delta", false, false, ["y"], true⟩ W3
    ⟨"delta", "docker", "cid", "img", "t", "", [], []⟩ rfl rfl (by decide)
    (by decide) (by decide) (by decide)
  have h2 := h.2.1 (by decide)
  have hv := h2.1 ⟨"v", "t0", "", "", ["delta"]⟩ (by decide) (by decide) (by decide)
  have hf := h2.2 ⟨"f", "file", "t0", "", "/s/a.txt", "/cp/f/a.txt", ["delta"]⟩
    (by decide) (by decide) (by decide)
  exact ⟨hv.1, hv.2, hf.1, hf.2⟩

/-! ## C1 support: closed forms of the rollback loops -/

theorem map_self_of_eq {α : Type} (l : List α) (f : α → α) (h : ∀ a ∈ l, f a = a) :
    l.map f = l := by
  induction l with
  | nil => rfl
  | cons a rest ih =>
    rw [List.map_cons, h a (List.mem_cons_self _ _),
      ih (fun x hx => h x (List.mem_cons_of_mem _ hx))]

theorem filter_idem {α : Type} (p : α → Bool) (l : List α) :
    (l.filter p).filter p = l.filter p := by
  induction l with
  | nil => rfl
  | cons a rest ih =>
    by_cases h : p a = true
    · rw [List.filter_cons_of_pos h, List.filter_cons_of_pos h, ih]
    · rw [List.filter_cons_of_neg h, ih]

theorem contains_true_of_mem (l : List String) (x : String) (h : x ∈ l) :
    l.contains x = true := by
  induction l with
  | nil => cases h
  | cons a rest ih =>
    rw [List.contains_cons]
    rcases List.mem_cons.mp h with rfl | h'
    · simp
    · rw [ih h', Bool.or_true]

theorem contains_false_of_not_mem (l : List String) (x : String) (h : x ∉ l) :
    l.contains x = false := by
  induction l with
  | nil => rfl
  | cons a rest ih =>
    rw [List.contains_cons]
    have hxa : (x == a) = false :=
      beq_eq_false_iff_ne.mpr (fun he => h (he ▸ List.mem_cons_self a rest))
    rw [hxa, Bool.false_or]
    exact ih (fun h' => h (List.mem_cons_of_mem _ h'))

theorem mem_of_contains_true (l : List String) (x : String) (h : l.contains x = true) :
    x ∈ l := by
  induction l with
  | nil => cases h
  | cons a rest ih =>
    rw [List.contains_cons] at h
    rcases Bool.or_eq_true_iff.mp h with h' | h'
    · exact (eq_of_beq h') ▸ List.mem_cons_self a rest
    · exact List.mem_cons_of_mem _ (ih h')

theorem upsertBy_append_fresh {α : Type} (key : α → String) (l : List α) (r : α)
    (h : key r ∉ l.map key) : upsertBy key l r = l ++ [r] := by
  induction l with
  | nil => rfl
  | cons a rest ih =>
    rw [List.map_cons, List.mem_cons] at h
    push_neg at h
    rw [upsertBy, if_neg (fun he => h.1 he.symm), ih h.2]
    rfl

theorem upsertBy_self {α : Type} (key : α → String) (l : List α) (r : α)
    (hnd : (l.map key).Nodup) (hf : l.find? (fun x => key x = key r) = some r) :
    upsertBy key l r = l := by
  induction l with
  | nil => cases hf
  | cons a rest ih =>
    rw [List.map_cons, List.nodup_cons] at hnd
    by_cases ha : key a = key r
    · rw [List.find?_cons_of_pos _ (by simpa using ha)] at hf
      injection hf with hf
      rw [upsertBy, if_pos ha, hf]
    · rw [List.find?_cons_of_neg _ (by simpa using ha)] at hf
      rw [upsertBy, if_neg ha, ih hnd.2 hf]

theorem upsertBy_map_replace {α : Type} (key : α → String) (l : List α) (r : α)
    (hnd : (l.map key).Nodup) (hmem : key r ∈ l.map key) :
    upsertBy key l r = l.map (fun x => if key x = key r then r else x) := by
  induction l with
  | nil => cases hmem
  | cons a rest ih =>
    rw [List.map_cons, List.nodup_cons] at hnd
    rw [List.map_cons, List.mem_cons] at hmem
    by_cases ha : key a = key r
    · rw [upsertBy, if_pos ha, List.map_cons, if_pos ha]
      congr 1
      symm
      apply map_self_of_eq
      intro x hx
      rw [if_neg]
      intro he
      exact hnd.1 (by rw [ha, ← he]; exact List.mem_map_of_mem key hx)
    · rw [upsertBy, if_neg ha, List.map_cons, if_neg ha]
      congr 1
      exact ih hnd.2 (hmem.resolve_left (fun he => ha he.symm))

theorem mem_key_eq_of_nodup {α : Type} (key : α → String) (l : List α)
    (hnd : (l.map key).Nodup) (x y : α) (hx : x ∈ l) (hy : y ∈ l)
    (hk : key x = key y) : x = y := by
  have h1 := find?_eq_of_nodup key l hnd x hx
  have h2 := find?_eq_of_nodup key l hnd y hy
  rw [hk] at h1
  rw [h1] at h2
  injection h2

theorem refsF_name (name : String) (ar : List String) (r : VolumeInfo) :
    (refsF name ar r).name = r.name := by
  rw [refsF]
  split <;> rfl

theorem removeStep_as_map (name v : String) (vols : List VolumeInfo)
    (hnd : (vols.map VolumeInfo.name).Nodup) :
    (match VolStore.removeSandboxRef vols v name with
     | none => vols
     | some vols2 => vols2) =
    vols.map (fun r => if r.name = v then
      { r with sandboxRefs := r.sandboxRefs.filter (fun z => z ≠ name) } else r) := by
  cases hget : VolStore.get vols v with
  | none =>
    rw [VolStore.removeSandboxRef, hget]
    simp only [Option.map_none']
    symm
    apply map_self_of_eq
    intro r hr
    rw [if_neg]
    intro he
    have h2 := List.find?_eq_none.mp hget r hr
    simp at h2
    exact h2 he
  | some info =>
    rw [removeSandboxRef_eq vols v name info hget]
    simp only []
    have hiv : info.name = v := by
      have h3 := List.find?_some hget
      simpa using h3
    rw [VolStore.save, upsertBy_map_replace VolumeInfo.name vols _ hnd
      (show VolumeInfo.name { info with
          sandboxRefs := info.sandboxRefs.filter (fun z => z ≠ name) } ∈ _ from
        hiv ▸ (List.mem_map_of_mem VolumeInfo.name (List.mem_of_find?_eq_some hget)))]
    apply List.map_congr_left
    intro r hr
    by_cases hrv : r.name = v
    · have hr_eq : r = info := mem_key_eq_of_nodup VolumeInfo.name vols hnd r info hr
        (List.mem_of_find?_eq_some hget) (by rw [hrv, hiv])
      rw [hr_eq]
      rw [if_pos rfl, if_pos hiv]
    · rw [if_neg (fun he => hrv (he.trans hiv)), if_neg hrv]

theorem refsF_comp (name a : String) (rest : List String) (r : VolumeInfo) :
    refsF name rest (if r.name = a then
      { r with sandboxRefs := r.sandboxRefs.filter (fun z => z ≠ name) } else r) =
    refsF name (a :: rest) r := by
  by_cases hra : r.name = a
  · rw [if_pos hra, refsF, refsF]
    have hcc : (a :: rest).contains r.name = true := by
      rw [List.contains_cons, beq_iff_eq.mpr hra, Bool.true_or]
    rw [if_pos hcc]
    by_cases hrest : rest.contains r.name = true
    · rw [if_pos hrest]
      show ({ r with sandboxRefs :=
        (r.sandboxRefs.filter (fun z => z ≠ name)).filter (fun z => z ≠ name) } :
          VolumeInfo) = _
      rw [filter_idem]
    · rw [if_neg hrest]
  · rw [if_neg hra, refsF, refsF]
    have hcc : (a :: rest).contains r.name = rest.contains r.name := by
      rw [List.contains_cons, beq_eq_false_iff_ne.mpr hra, Bool.false_or]
    rw [hcc]

theorem volsRemoveRefs_names (name : String) (ar : List String) :
    ∀ vols : List VolumeInfo,
      (volsRemoveRefs name ar vols).map VolumeInfo.name = vols.map VolumeInfo.name := by
  induction ar with
  | nil => intro vols; rfl
  | cons a rest ih =>
    intro vols
    rw [volsRemoveRefs]
    cases hrm : VolStore.removeSandboxRef vols a name with
    | none => simp only []; exact ih vols
    | some vols2 =>
      simp only []
      exact (ih vols2).trans (removeSandboxRef_names vols a name vols2 hrm)

theorem volsRemoveRefs_map_eq (name : String) (ar : List String) :
    ∀ vols : List VolumeInfo, (vols.map VolumeInfo.name).Nodup →
      volsRemoveRefs name ar vols = vols.map (refsF name ar) := by
  induction ar with
  | nil =>
    intro vols _
    symm
    apply map_self_of_eq
    intro r _
    rfl
  | cons a rest ih =>
    intro vols hnd
    rw [volsRemoveRefs, removeStep_as_map name a vols hnd]
    have hnd2 : ((vols.map (fun r => if r.name = a then
        { r with sandboxRefs := r.sandboxRefs.filter (fun z => z ≠ name) } else r)).map
          VolumeInfo.name).Nodup := by
      rw [List.map_map]
      have : ∀ r ∈ vols, (VolumeInfo.name ∘ fun r => if r.name = a then
          { r with sandboxRefs := r.sandboxRefs.filter (fun z => z ≠ name) } else r) r =
          VolumeInfo.name r := by
        intro r _
        show VolumeInfo.name (if r.name = a then _ else r) = r.name
        split <;> rfl
      rw [List.map_congr_left this]
      exact hnd
    rw [ih _ hnd2, List.map_map]
    apply List.map_congr_left
    intro r hr
    exact refsF_comp name a rest r

theorem filter_self_of_true {α : Type} (l : List α) (p : α → Bool)
    (h : ∀ a ∈ l, p a = true) : l.filter p = l := by
  induction l with
  | nil => rfl
  | cons a rest ih =>
    rw [List.filter_cons_of_pos (h a (List.mem_cons_self _ _)),
      ih (fun x hx => h x (List.mem_cons_of_mem _ hx))]

theorem rollbackRefs_eq (name : String) : ∀ (l : List String) (s : WorldState),
    rollbackRefs name l s = { s with volumes := volsRemoveRefs name l s.volumes } := by
  intro l
  induction l with
  | nil => intro s; rfl
  | cons v rest ih =>
    intro s
    rw [rollbackRefs, volsRemoveRefs]
    cases hrm : VolStore.removeSandboxRef s.volumes v name with
    | none =>
      simp only []
      exact ih s
    | some vols =>
      simp only []
      exact ih { s with volumes := vols }

theorem rollbackCreatedVolumes_eq : ∀ (l : List String) (s : WorldState),
    rollbackCreatedVolumes l s =
      { s with volumes := s.volumes.filter (fun v => !(l.contains v.name)),
               dockerVolumes := s.dockerVolumes.filter (fun d => !(l.contains d)) } := by
  intro l
  induction l with
  | nil =>
    intro s
    show s = _
    rw [filter_self_of_true s.volumes (fun v => !(([] : List String).contains v.name))
        (fun a _ => rfl),
      filter_self_of_true s.dockerVolumes (fun d => !(([] : List String).contains d))
        (fun a _ => rfl)]
  | cons v rest ih =>
    intro s
    rw [rollbackCreatedVolumes, ih, VolStore.remove]
    congr 1
    · rw [List.filter_filter]
      apply List.filter_congr
      intro x _
      by_cases hx : x.name = v <;> simp [hx, List.contains_cons]
    · rw [List.filter_filter]
      apply List.filter_congr
      intro x _
      by_cases hx : x = v <;> simp [hx, List.contains_cons]

theorem rollbackFileRefs_eq : ∀ (l : List String) (s : WorldState),
    rollbackFileRefs l s =
      { s with fileMounts := s.fileMounts.filter (fun f => !(l.contains f.name)) } := by
  intro l
  induction l with
  | nil =>
    intro s
    show s = _
    rw [filter_self_of_true s.fileMounts (fun f => !(([] : List String).contains f.name))
        (fun a _ => rfl)]
  | cons m rest ih =>
    intro s
    rw [rollbackFileRefs, ih, FMStore.remove]
    congr 1
    rw [List.filter_filter]
    apply List.filter_congr
    intro x _
    by_cases hx : x.name = m <;> simp [hx, List.contains_cons]

theorem rollbackDirs_eq : ∀ (l : List String) (s : WorldState),
    rollbackDirs l s =
      { s with dirs := s.dirs.filter (fun d => !(l.contains d)) } := by
  intro l
  induction l with
  | nil =>
    intro s
    show s = _
    rw [filter_self_of_true s.dirs (fun d => !(([] : List String).contains d))
        (fun a _ => rfl)]
  | cons d rest ih =>
    intro s
    rw [rollbackDirs, ih]
    congr 1
    rw [List.filter_filter]
    apply List.filter_congr
    intro x _
    by_cases hx : x = d <;> simp [hx, List.contains_cons]

theorem rollbackAll_eq (name : String) (lg : Ledger) (s : WorldState) :
    rollbackAll name lg s =
      { s with
        volumes := (volsRemoveRefs name lg.addedRefs s.volumes).filter
          (fun v => !(lg.createdVolumes.contains v.name)),
        dockerVolumes := s.dockerVolumes.filter
          (fun d => !(lg.createdVolumes.contains d)),
        fileMounts := s.fileMounts.filter
          (fun f => !(lg.addedFileRefs.contains f.name)),
        dirs := s.dirs.filter (fun d => !(lg.createdFileMountDirs.contains d)) } := by
  rw [rollbackAll, rollbackRefs_eq, rollbackCreatedVolumes_eq, rollbackFileRefs_eq,
    rollbackDirs_eq]

theorem contains_append_singleton_ne (l : List String) (v x : String) (h : x ≠ v) :
    (l ++ [v]).contains x = l.contains x := by
  induction l with
  | nil =>
    show ([v].contains x) = false
    rw [List.contains_cons, beq_eq_false_iff_ne.mpr h]
    rfl
  | cons a rest ih =>
    rw [List.cons_append, List.contains_cons, List.contains_cons, ih]

theorem contains_append_singleton_self (l : List String) (v : String) :
    (l ++ [v]).contains v = true :=
  contains_true_of_mem _ _ (List.mem_append_right _ (List.mem_cons_self _ _))

theorem inv_step_dockerCreate (name vn : String) (lg : Ledger) (s s0 : WorldState)
    (hINV : rollbackAll name lg s = s0)
    (hv : vn ∉ s.volumes.map VolumeInfo.name)
    (hd : vn ∉ s.dockerVolumes) :
    rollbackAll name { lg with createdVolumes := lg.createdVolumes ++ [vn] }
      { s with dockerVolumes := s.dockerVolumes ++ [vn] } = s0 := by
  rw [rollbackAll_eq] at hINV ⊢
  refine Eq.trans ?_ hINV
  simp only [WorldState.mk.injEq]
  refine ⟨trivial, ?_, trivial, ?_, trivial, trivial⟩
  · apply List.filter_congr
    intro x hx
    have hxn : x.name ≠ vn := by
      intro he
      apply hv
      rw [← he]
      have hmm : x.name ∈ (volsRemoveRefs name lg.addedRefs s.volumes).map VolumeInfo.name :=
        List.mem_map_of_mem _ hx
      rw [volsRemoveRefs_names] at hmm
      exact hmm
    rw [contains_append_singleton_ne _ _ _ hxn]
  · show (s.dockerVolumes ++ [vn]).filter
        (fun d => !((lg.createdVolumes ++ [vn]).contains d)) =
      s.dockerVolumes.filter (fun d => !(lg.createdVolumes.contains d))
    rw [List.filter_append]
    have h1 : List.filter (fun d => !((lg.createdVolumes ++ [vn]).contains d)) [vn] = [] := by
      have hc := contains_append_singleton_self lg.createdVolumes vn
      simp [hc]
    rw [h1, List.append_nil]
    apply List.filter_congr
    intro x hx
    have hxv : x ≠ vn := fun he => hd (he ▸ hx)
    rw [contains_append_singleton_ne _ _ _ hxv]

theorem inv_step_volSave (name vn ca src : String) (lg : Ledger) (s s0 : WorldState)
    (hINV : rollbackAll name lg s = s0)
    (hndv : (s.volumes.map VolumeInfo.name).Nodup)
    (hv : vn ∉ s.volumes.map VolumeInfo.name)
    (hcv : vn ∈ lg.createdVolumes) :
    rollbackAll name { lg with addedRefs := lg.addedRefs ++ [vn] }
      { s with volumes := VolStore.save s.volumes (⟨vn, ca, "rwcopy", src, [name]⟩ : VolumeInfo) } = s0 := by
  have hsave : VolStore.save s.volumes (⟨vn, ca, "rwcopy", src, [name]⟩ : VolumeInfo) =
      s.volumes ++ [⟨vn, ca, "rwcopy", src, [name]⟩] :=
    upsertBy_append_fresh VolumeInfo.name s.volumes _ hv
  have hnd2 : (((s.volumes ++ [(⟨vn, ca, "rwcopy", src, [name]⟩ : VolumeInfo)]).map
      VolumeInfo.name)).Nodup := by
    rw [List.map_append]
    refine List.Nodup.append hndv (List.nodup_singleton _) ?_
    intro a ha hb
    rw [List.map_cons, List.map_nil, List.mem_singleton] at hb
    have hb2 : a = vn := hb
    exact hv (hb2 ▸ ha)
  have hA : s.volumes.map (refsF name (lg.addedRefs ++ [vn])) =
      s.volumes.map (refsF name lg.addedRefs) := by
    apply List.map_congr_left
    intro r hr
    rw [refsF, refsF, contains_append_singleton_ne _ _ _
      (fun he => hv (by rw [← he]; exact List.mem_map_of_mem VolumeInfo.name hr))]
  have hB : List.filter (fun v => !(lg.createdVolumes.contains v.name))
      ([(⟨vn, ca, "rwcopy", src, [name]⟩ : VolumeInfo)].map
        (refsF name (lg.addedRefs ++ [vn]))) = [] := by
    rw [List.map_cons, List.map_nil, List.filter_cons_of_neg, List.filter_nil]
    show ¬((!(lg.createdVolumes.contains
      (refsF name (lg.addedRefs ++ [vn]) ⟨vn, ca, "rwcopy", src, [name]⟩).name)) = true)
    rw [refsF_name]
    rw [show (⟨vn, ca, "rwcopy", src, [name]⟩ : VolumeInfo).name = vn from rfl]
    rw [contains_true_of_mem _ _ hcv]
    simp
  rw [rollbackAll_eq] at hINV ⊢
  refine Eq.trans ?_ hINV
  simp only [WorldState.mk.injEq]
  refine ⟨trivial, ?_, trivial, trivial, trivial, trivial⟩
  rw [hsave, volsRemoveRefs_map_eq name (lg.addedRefs ++ [vn]) _ hnd2, List.map_append,
    List.filter_append, hB, List.append_nil, hA,
    ← volsRemoveRefs_map_eq name lg.addedRefs _ hndv]

theorem inv_step_mkdir (name cd : String) (lg : Ledger) (s s0 : WorldState)
    (hINV : rollbackAll name lg s = s0)
    (hdir : cd ∉ s.dirs) :
    rollbackAll name { lg with createdFileMountDirs := lg.createdFileMountDirs ++ [cd] }
      { s with dirs := s.dirs ++ [cd] } = s0 := by
  rw [rollbackAll_eq] at hINV ⊢
  refine Eq.trans ?_ hINV
  simp only [WorldState.mk.injEq]
  refine ⟨trivial, trivial, trivial, trivial, ?_, trivial⟩
  show (s.dirs ++ [cd]).filter
      (fun d => !((lg.createdFileMountDirs ++ [cd]).contains d)) =
    s.dirs.filter (fun d => !(lg.createdFileMountDirs.contains d))
  rw [List.filter_append]
  have h1 : List.filter (fun d => !((lg.createdFileMountDirs ++ [cd]).contains d)) [cd] = [] := by
    have hc := contains_append_singleton_self lg.createdFileMountDirs cd
    simp [hc]
  rw [h1, List.append_nil]
  apply List.filter_congr
  intro x hx
  have hxv : x ≠ cd := fun he => hdir (he ▸ hx)
  rw [contains_append_singleton_ne _ _ _ hxv]

theorem inv_step_fmSave (name mn : String) (fmInfo : FileMountInfo) (lg : Ledger)
    (s s0 : WorldState)
    (hINV : rollbackAll name lg s = s0)
    (hname : fmInfo.name = mn)
    (hf : mn ∉ s.fileMounts.map FileMountInfo.name) :
    rollbackAll name { lg with addedFileRefs := lg.addedFileRefs ++ [mn] }
      { s with fileMounts := FMStore.save s.fileMounts fmInfo } = s0 := by
  have hsave : FMStore.save s.fileMounts fmInfo = s.fileMounts ++ [fmInfo] :=
    upsertBy_append_fresh FileMountInfo.name s.fileMounts _ (hname ▸ hf)
  rw [rollbackAll_eq] at hINV ⊢
  refine Eq.trans ?_ hINV
  simp only [WorldState.mk.injEq]
  refine ⟨trivial, trivial, ?_, trivial, trivial, trivial⟩
  rw [hsave, List.filter_append]
  have h1 : List.filter (fun f => !((lg.addedFileRefs ++ [mn]).contains f.name)) [fmInfo]
      = [] := by
    have hc := contains_append_singleton_self lg.addedFileRefs mn
    simp [hname, hc]
  rw [h1, List.append_nil]
  apply List.filter_congr
  intro x hx
  have hxv : x.name ≠ mn := fun he => hf (he ▸ List.mem_map_of_mem FileMountInfo.name hx)
  rw [contains_append_singleton_ne _ _ _ hxv]

theorem inv_step_attach (name w : String) (info : VolumeInfo) (lg : Ledger)
    (s s0 : WorldState)
    (hINV : rollbackAll name lg s = s0)
    (hndv : (s.volumes.map VolumeInfo.name).Nodup)
    (hget : VolStore.get s.volumes w = some info)
    (hnotref : name ∉ info.sandboxRefs)
    (har : w ∉ lg.addedRefs) :
    rollbackAll name { lg with addedRefs := lg.addedRefs ++ [w] }
      { s with volumes := VolStore.save s.volumes { info with sandboxRefs := info.sandboxRefs ++ [name] } } = s0 := by
  have hw : info.name = w := by
    have h3 := List.find?_some hget
    simpa using h3
  have hmeminfo : info ∈ s.volumes := List.mem_of_find?_eq_some hget
  have hup : VolStore.save s.volumes { info with sandboxRefs := info.sandboxRefs ++ [name] } =
      s.volumes.map (fun x => if x.name =
          ({ info with sandboxRefs := info.sandboxRefs ++ [name] } : VolumeInfo).name then
        { info with sandboxRefs := info.sandboxRefs ++ [name] } else x) :=
    upsertBy_map_replace VolumeInfo.name s.volumes _ hndv
      (show VolumeInfo.name ({ info with sandboxRefs := info.sandboxRefs ++ [name] } :
          VolumeInfo) ∈ s.volumes.map VolumeInfo.name from by
        have h5 : VolumeInfo.name info ∈ s.volumes.map VolumeInfo.name :=
          List.mem_map_of_mem VolumeInfo.name hmeminfo
        exact h5)
  have hndrep : ((s.volumes.map (fun x => if x.name =
      ({ info with sandboxRefs := info.sandboxRefs ++ [name] } : VolumeInfo).name then
        { info with sandboxRefs := info.sandboxRefs ++ [name] } else x)).map
      VolumeInfo.name).Nodup := by
    rw [List.map_map]
    have hmc : ∀ r ∈ s.volumes, (VolumeInfo.name ∘ fun x => if x.name =
        ({ info with sandboxRefs := info.sandboxRefs ++ [name] } : VolumeInfo).name then
          { info with sandboxRefs := info.sandboxRefs ++ [name] } else x) r =
        VolumeInfo.name r := by
      intro r _
      show VolumeInfo.name (if r.name = info.name then _ else r) = r.name
      split
      · next he => exact he.symm
      · rfl
    rw [List.map_congr_left hmc]
    exact hndv
  rw [rollbackAll_eq] at hINV ⊢
  refine Eq.trans ?_ hINV
  simp only [WorldState.mk.injEq]
  refine ⟨trivial, ?_, trivial, trivial, trivial, trivial⟩
  rw [hup, volsRemoveRefs_map_eq name (lg.addedRefs ++ [w]) _ hndrep, List.map_map,
    volsRemoveRefs_map_eq name lg.addedRefs _ hndv]
  have hpt : ∀ x ∈ s.volumes, (refsF name (lg.addedRefs ++ [w]) ∘ fun x => if x.name =
      ({ info with sandboxRefs := info.sandboxRefs ++ [name] } : VolumeInfo).name then
        { info with sandboxRefs := info.sandboxRefs ++ [name] } else x) x =
      refsF name lg.addedRefs x := by
    intro x hx
    by_cases hxw : x.name = w
    · have hx_eq : x = info := mem_key_eq_of_nodup VolumeInfo.name s.volumes hndv x info
        hx hmeminfo (by rw [hxw, hw])
      subst hx_eq
      show refsF name (lg.addedRefs ++ [w])
          (if x.name = x.name then
            { x with sandboxRefs := x.sandboxRefs ++ [name] } else x) =
        refsF name lg.addedRefs x
      rw [if_pos rfl, refsF, refsF,
        if_pos (show (lg.addedRefs ++ [w]).contains
          ({ x with sandboxRefs := x.sandboxRefs ++ [name] } : VolumeInfo).name = true from
          hxw ▸ contains_append_singleton_self lg.addedRefs w),
        if_neg (show ¬(lg.addedRefs.contains x.name = true) from by
          rw [hxw, contains_false_of_not_mem _ _ har]
          simp)]
      show ({ x with sandboxRefs :=
          (x.sandboxRefs ++ [name]).filter (fun z => z ≠ name) } : VolumeInfo) = x
      rw [List.filter_append,
        List.filter_cons_of_neg (by simp), List.filter_nil, List.append_nil,
        filter_self_of_true _ _ (fun z hz => by
          simp only [decide_eq_true_eq]
          exact fun he => hnotref (he ▸ hz))]
    · show refsF name (lg.addedRefs ++ [w])
          (if x.name = info.name then
            { info with sandboxRefs := info.sandboxRefs ++ [name] } else x) =
        refsF name lg.addedRefs x
      rw [if_neg (fun he => hxw (he.trans hw)), refsF, refsF,
        contains_append_singleton_ne _ _ _ hxw]
  rw [List.map_congr_left hpt]

theorem mintedVolNames_cons (name : String) (p : MountBinding × MountStep)
    (rest : List (MountBinding × MountStep)) :
    mintedVolNames name (p :: rest) =
      (if p.1.mode = "rwcopy" ∧ p.2.stat = StatResult.dir then
        [generateRWCopyVolumeName name p.1.target p.2.nanos] else []) ++
      mintedVolNames name rest := by
  simp only [mintedVolNames, List.filterMap_cons]
  by_cases hc : p.1.mode = "rwcopy" ∧ p.2.stat = StatResult.dir
  · rw [if_pos hc, if_pos hc]
    rfl
  · rw [if_neg hc, if_neg hc]
    rfl

theorem mintedFMNames_cons (name : String) (p : MountBinding × MountStep)
    (rest : List (MountBinding × MountStep)) :
    mintedFMNames name (p :: rest) =
      (if p.1.mode = "rwcopy" ∧ p.2.stat = StatResult.file then
        [generateRWCopyFileMountName name p.1.target p.2.nanos] else []) ++
      mintedFMNames name rest := by
  simp only [mintedFMNames, List.filterMap_cons]
  by_cases hc : p.1.mode = "rwcopy" ∧ p.2.stat = StatResult.file
  · rw [if_pos hc, if_pos hc]
    rfl
  · rw [if_neg hc, if_neg hc]
    rfl

theorem string_append_left_cancel (p a b : String) (h : p ++ a = p ++ b) : a = b := by
  have hd := congrArg String.data h
  rw [string_append_data, string_append_data] at hd
  have hd2 := List.append_cancel_left hd
  cases a
  cases b
  exact congrArg String.mk hd2

theorem rollbackAll_empty (name : String) (s : WorldState) :
    rollbackAll name Ledger.empty s = s := by
  rw [rollbackAll_eq]
  show { s with
      volumes := (volsRemoveRefs name [] s.volumes).filter
        (fun v => !(([] : List String).contains v.name)),
      dockerVolumes := s.dockerVolumes.filter (fun d => !(([] : List String).contains d)),
      fileMounts := s.fileMounts.filter (fun f => !(([] : List String).contains f.name)),
      dirs := s.dirs.filter (fun d => !(([] : List String).contains d)) } = s
  rw [filter_self_of_true (volsRemoveRefs name [] s.volumes)
      (fun v => !(([] : List String).contains v.name)) (fun a _ => rfl),
    filter_self_of_true s.dockerVolumes (fun d => !(([] : List String).contains d))
      (fun a _ => rfl),
    filter_self_of_true s.fileMounts (fun f => !(([] : List String).contains f.name))
      (fun a _ => rfl),
    filter_self_of_true s.dirs (fun d => !(([] : List String).contains d)) (fun a _ => rfl)]
  rfl

theorem processMounts_rollback (name baseDir : String) (s0 : WorldState) :
    ∀ (l : List (MountBinding × MountStep)) (s : WorldState) (lg : Ledger)
      (rms : List MountBinding),
      rollbackAll name lg s = s0 →
      (s.volumes.map VolumeInfo.name).Nodup →
      (∀ r ∈ s.volumes, name ∈ r.sandboxRefs → lg.addedRefs.contains r.name = true) →
      (∀ a ∈ lg.addedRefs, ∃ r ∈ s.volumes, r.name = a ∧ name ∈ r.sandboxRefs) →
      (∀ a ∈ lg.addedFileRefs, a ∈ s.fileMounts.map FileMountInfo.name) →
      (∀ n ∈ mintedVolNames name l,
          n ∉ s.volumes.map VolumeInfo.name ∧ n ∉ s.dockerVolumes) →
      (mintedVolNames name l).Nodup →
      (∀ n ∈ mintedFMNames name l, n ∉ s.fileMounts.map FileMountInfo.name ∧
          (baseDir ++ "/" ++ n) ∉ s.dirs) →
      (mintedFMNames name l).Nodup →
      RollbackOk s0 name (processMounts name baseDir l s lg rms) := by
  intro l
  induction l with
  | nil =>
    intro s lg rms hINV hnd hL hL2 _ _ _ _ _
    exact ⟨hINV, hnd, hL, hL2⟩
  | cons p rest ih =>
    intro s lg rms hINV hnd hL hL2 hF hfv hfvnd hff hffnd
    obtain ⟨m, step⟩ := p
    rw [processMounts]
    by_cases hmode : m.mode ≠ "rwcopy"
    · rw [if_pos hmode]
      have hveq : mintedVolNames name ((m, step) :: rest) = mintedVolNames name rest := by
        rw [mintedVolNames_cons, if_neg (fun hc => hmode hc.1), List.nil_append]
      have hfeq : mintedFMNames name ((m, step) :: rest) = mintedFMNames name rest := by
        rw [mintedFMNames_cons, if_neg (fun hc => hmode hc.1), List.nil_append]
      rw [hveq] at hfv hfvnd
      rw [hfeq] at hff hffnd
      exact ih s lg (rms ++ [m]) hINV hnd hL hL2 hF hfv hfvnd hff hffnd
    · rw [if_neg hmode]
      have hmode2 : m.mode = "rwcopy" := not_not.mp hmode
      cases hstat : step.stat with
      | err => exact hINV
      | dir =>
        have hveq : mintedVolNames name ((m, step) :: rest) =
            generateRWCopyVolumeName name m.target step.nanos ::
              mintedVolNames name rest := by
          rw [mintedVolNames_cons, if_pos ⟨hmode2, hstat⟩, List.singleton_append]
        have hnotfile : ¬(m.mode = "rwcopy" ∧ step.stat = StatResult.file) := by
          intro hc
          rw [hstat] at hc
          exact absurd hc.2 (by intro hx; cases hx)
        have hfeq : mintedFMNames name ((m, step) :: rest) = mintedFMNames name rest := by
          rw [mintedFMNames_cons, if_neg hnotfile, List.nil_append]
        rw [hveq] at hfv hfvnd
        rw [hfeq] at hff hffnd
        have hfv_head := hfv (generateRWCopyVolumeName name m.target step.nanos)
          (List.mem_cons_self _ _)
        have hfv_tail : ∀ n ∈ mintedVolNames name rest,
            n ∉ s.volumes.map VolumeInfo.name ∧ n ∉ s.dockerVolumes :=
          fun n hn => hfv n (List.mem_cons_of_mem _ hn)
        have hnvn : ∀ n ∈ mintedVolNames name rest,
            n ≠ generateRWCopyVolumeName name m.target step.nanos := by
          intro n hn he
          exact (List.nodup_cons.mp hfvnd).1 (he ▸ hn)
        by_cases h1 : (!step.createVolOk) = true
        · simp only [h1, if_true]
          exact hINV
        · simp only [h1, if_false]
          have hINV1 : rollbackAll name
              { lg with createdVolumes :=
                  lg.createdVolumes ++ [generateRWCopyVolumeName name m.target step.nanos] }
              { s with dockerVolumes :=
                  s.dockerVolumes ++ [generateRWCopyVolumeName name m.target step.nanos] } =
              s0 :=
            inv_step_dockerCreate name _ lg s s0 hINV hfv_head.1 hfv_head.2
          by_cases h2 : (!step.copyOk) = true
          · simp only [h2, if_true]
            exact hINV1
          · simp only [h2, if_false]
            by_cases h3 : (!step.saveOk) = true
            · simp only [h3, if_true]
              exact hINV1
            · simp only [h3, if_false]
              have harnm : generateRWCopyVolumeName name m.target step.nanos ∉
                  lg.addedRefs := by
                intro hmem
                obtain ⟨r, hr, hrn, _⟩ := hL2 _ hmem
                exact hfv_head.1 (by rw [← hrn]
                                     exact List.mem_map_of_mem VolumeInfo.name hr)
              have hneg : ¬(lg.addedRefs.contains
                  (generateRWCopyVolumeName name m.target step.nanos) = true) :=
                fun hc => harnm (mem_of_contains_true _ _ hc)
              simp only [hneg, if_false]
              have hsave2 : VolStore.save s.volumes
                  (⟨generateRWCopyVolumeName name m.target step.nanos, step.createdAt,
                    "rwcopy", m.source, [name]⟩ : VolumeInfo) =
                  s.volumes ++ [⟨generateRWCopyVolumeName name m.target step.nanos,
                    step.createdAt, "rwcopy", m.source, [name]⟩] :=
                upsertBy_append_fresh VolumeInfo.name s.volumes _ hfv_head.1
              apply ih
              · exact inv_step_volSave name _ step.createdAt m.source
                  { lg with createdVolumes := lg.createdVolumes ++
                      [generateRWCopyVolumeName name m.target step.nanos] }
                  { s with dockerVolumes := s.dockerVolumes ++
                      [generateRWCopyVolumeName name m.target step.nanos] }
                  s0 hINV1 hnd hfv_head.1
                  (List.mem_append_right _ (List.mem_cons_self _ _))
              · show ((VolStore.save s.volumes
                    (⟨generateRWCopyVolumeName name m.target step.nanos, step.createdAt,
                      "rwcopy", m.source, [name]⟩ : VolumeInfo)).map VolumeInfo.name).Nodup
                rw [hsave2, List.map_append]
                refine List.Nodup.append hnd (List.nodup_singleton _) ?_
                intro a ha hb
                rw [List.map_cons, List.map_nil, List.mem_singleton] at hb
                have hb2 : a = generateRWCopyVolumeName name m.target step.nanos := hb
                exact hfv_head.1 (hb2 ▸ ha)
              · intro r hr hnm
                have hr2 : r ∈ VolStore.save s.volumes
                    (⟨generateRWCopyVolumeName name m.target step.nanos, step.createdAt,
                      "rwcopy", m.source, [name]⟩ : VolumeInfo) := hr
                rw [hsave2] at hr2
                show (lg.addedRefs ++
                    [generateRWCopyVolumeName name m.target step.nanos]).contains r.name =
                  true
                rcases List.mem_append.mp hr2 with hr3 | hr3
                · exact contains_true_of_mem _ _
                    (List.mem_append_left _ (mem_of_contains_true _ _ (hL r hr3 hnm)))
                · rw [List.mem_singleton] at hr3
                  subst hr3
                  exact contains_append_singleton_self _ _
              · intro a ha
                have ha2 : a ∈ lg.addedRefs ++
                    [generateRWCopyVolumeName name m.target step.nanos] := ha
                rcases List.mem_append.mp ha2 with ha3 | ha3
                · obtain ⟨r, hr, hrn, hrm⟩ := hL2 a ha3
                  refine ⟨r, ?_, hrn, hrm⟩
                  show r ∈ VolStore.save s.volumes _
                  rw [hsave2]
                  exact List.mem_append_left _ hr
                · rw [List.mem_singleton] at ha3
                  subst ha3
                  refine ⟨⟨generateRWCopyVolumeName name m.target step.nanos,
                    step.createdAt, "rwcopy", m.source, [name]⟩, ?_, rfl, ?_⟩
                  · show _ ∈ VolStore.save s.volumes _
                    rw [hsave2]
                    exact List.mem_append_right _ (List.mem_cons_self _ _)
                  · exact List.mem_cons_self _ _
              · exact hF
              · intro n hn
                have h6 := hfv_tail n hn
                have hne := hnvn n hn
                constructor
                · show n ∉ (VolStore.save s.volumes _).map VolumeInfo.name
                  rw [hsave2, List.map_append]
                  intro hmem
                  rcases List.mem_append.mp hmem with h7 | h7
                  · exact h6.1 h7
                  · rw [List.map_cons, List.map_nil, List.mem_singleton] at h7
                    have h8 : n = generateRWCopyVolumeName name m.target step.nanos := h7
                    exact hne h8
                · show n ∉ s.dockerVolumes ++
                    [generateRWCopyVolumeName name m.target step.nanos]
                  intro hmem
                  rcases List.mem_append.mp hmem with h7 | h7
                  · exact h6.2 h7
                  · exact hne (List.mem_singleton.mp h7)
              · exact (List.nodup_cons.mp hfvnd).2
              · exact hff
              · exact hffnd
      | file =>
        have hnotdir : ¬(m.mode = "rwcopy" ∧ step.stat = StatResult.dir) := by
          intro hc
          rw [hstat] at hc
          exact absurd hc.2 (by intro hx; cases hx)
        have hveq : mintedVolNames name ((m, step) :: rest) = mintedVolNames name rest := by
          rw [mintedVolNames_cons, if_neg hnotdir, List.nil_append]
        have hfeq : mintedFMNames name ((m, step) :: rest) =
            generateRWCopyFileMountName name m.target step.nanos ::
              mintedFMNames name rest := by
          rw [mintedFMNames_cons, if_pos ⟨hmode2, hstat⟩, List.singleton_append]
        rw [hveq] at hfv hfvnd
        rw [hfeq] at hff hffnd
        have hff_head := hff (generateRWCopyFileMountName name m.target step.nanos)
          (List.mem_cons_self _ _)
        have hff_tail : ∀ n ∈ mintedFMNames name rest,
            n ∉ s.fileMounts.map FileMountInfo.name ∧
            (baseDir ++ "/" ++ n) ∉ s.dirs :=
          fun n hn => hff n (List.mem_cons_of_mem _ hn)
        have hnmn : ∀ n ∈ mintedFMNames name rest,
            n ≠ generateRWCopyFileMountName name m.target step.nanos := by
          intro n hn he
          exact (List.nodup_cons.mp hffnd).1 (he ▸ hn)
        by_cases h1 : (!step.mkdirOk) = true
        · simp only [h1, if_true]
          exact hINV
        · simp only [h1, if_false]
          have hcdneg : (s.dirs.contains (baseDir ++ "/" ++
              generateRWCopyFileMountName name m.target step.nanos)) = false :=
            contains_false_of_not_mem _ _ hff_head.2
          simp only [hcdneg, Bool.false_eq_true, if_false]
          have hINV1 : rollbackAll name
              { lg with createdFileMountDirs := lg.createdFileMountDirs ++
                  [baseDir ++ "/" ++ generateRWCopyFileMountName name m.target step.nanos] }
              { s with dirs := s.dirs ++
                  [baseDir ++ "/" ++ generateRWCopyFileMountName name m.target step.nanos] } =
              s0 :=
            inv_step_mkdir name _ lg s s0 hINV hff_head.2
          by_cases h2 : (!step.copyFileOk) = true
          · simp only [h2, if_true]
            exact hINV1
          · simp only [h2, if_false]
            by_cases h3 : (!step.saveOk) = true
            · simp only [h3, if_true]
              exact hINV1
            · simp only [h3, if_false]
              have hafr : generateRWCopyFileMountName name m.target step.nanos ∉
                  lg.addedFileRefs :=
                fun hmem => hff_head.1 (hF _ hmem)
              have hneg : ¬(lg.addedFileRefs.contains
                  (generateRWCopyFileMountName name m.target step.nanos) = true) :=
                fun hc => hafr (mem_of_contains_true _ _ hc)
              simp only [hneg, if_false]
              have hsave2 : FMStore.save s.fileMounts
                  (⟨generateRWCopyFileMountName name m.target step.nanos, "file",
                    step.createdAt, "rwcopy", m.source,
                    (baseDir ++ "/" ++ generateRWCopyFileMountName name m.target step.nanos)
                      ++ "/" ++ goFilepathBase m.source, [name]⟩ : FileMountInfo) =
                  s.fileMounts ++ [⟨generateRWCopyFileMountName name m.target step.nanos,
                    "file", step.createdAt, "rwcopy", m.source,
                    (baseDir ++ "/" ++ generateRWCopyFileMountName name m.target step.nanos)
                      ++ "/" ++ goFilepathBase m.source, [name]⟩] :=
                upsertBy_append_fresh FileMountInfo.name s.fileMounts _ hff_head.1
              apply ih
              · exact inv_step_fmSave name _ _
                  { lg with createdFileMountDirs := lg.createdFileMountDirs ++
                      [baseDir ++ "/" ++
                        generateRWCopyFileMountName name m.target step.nanos] }
                  { s with dirs := s.dirs ++
                      [baseDir ++ "/" ++
                        generateRWCopyFileMountName name m.target step.nanos] }
                  s0 hINV1 rfl hff_head.1
              · exact hnd
              · exact hL
              · intro a ha
                obtain ⟨r, hr, hrn, hrm⟩ := hL2 a ha
                exact ⟨r, hr, hrn, hrm⟩
              · intro a ha
                have ha2 : a ∈ lg.addedFileRefs ++
                    [generateRWCopyFileMountName name m.target step.nanos] := ha
                show a ∈ (FMStore.save s.fileMounts _).map FileMountInfo.name
                rw [hsave2, List.map_append]
                rcases List.mem_append.mp ha2 with ha3 | ha3
                · exact List.mem_append_left _ (hF a ha3)
                · rw [List.mem_singleton] at ha3
                  subst ha3
                  refine List.mem_append_right _ ?_
                  rw [List.map_cons, List.map_nil]
                  exact List.mem_singleton.mpr rfl
              · exact hfv
              · exact hfvnd
              · intro n hn
                have h6 := hff_tail n hn
                have hne := hnmn n hn
                constructor
                · show n ∉ (FMStore.save s.fileMounts _).map FileMountInfo.name
                  rw [hsave2, List.map_append]
                  intro hmem
                  rcases List.mem_append.mp hmem with h7 | h7
                  · exact h6.1 h7
                  · rw [List.map_cons, List.map_nil, List.mem_singleton] at h7
                    have h8 : n = generateRWCopyFileMountName name m.target step.nanos := h7
                    exact hne h8
                · show (baseDir ++ "/" ++ n) ∉ s.dirs ++
                    [baseDir ++ "/" ++ generateRWCopyFileMountName name m.target step.nanos]
                  intro hmem
                  rcases List.mem_append.mp hmem with h7 | h7
                  · exact h6.2 h7
                  · rw [List.mem_singleton] at h7
                    exact hne (string_append_left_cancel (baseDir ++ "/") _ _ h7)
              · exact (List.nodup_cons.mp hffnd).2

theorem processVolumeMounts_rollback (name : String) (s0 : WorldState) :
    ∀ (l : List (MountBinding × Bool)) (s : WorldState) (lg : Ledger)
      (rms : List MountBinding),
      rollbackAll name lg s = s0 →
      (s.volumes.map VolumeInfo.name).Nodup →
      (∀ r ∈ s.volumes, name ∈ r.sandboxRefs → lg.addedRefs.contains r.name = true) →
      (∀ a ∈ lg.addedRefs, ∃ r ∈ s.volumes, r.name = a ∧ name ∈ r.sandboxRefs) →
      RollbackOk s0 name (processVolumeMounts name l s lg rms) := by
  intro l
  induction l with
  | nil =>
    intro s lg rms hINV hnd hL hL2
    exact ⟨hINV, hnd, hL, hL2⟩
  | cons p rest ih =>
    intro s lg rms hINV hnd hL hL2
    obtain ⟨v, saveOk⟩ := p
    rw [processVolumeMounts]
    cases hget : VolStore.get s.volumes v.volume with
    | none => exact hINV
    | some info =>
      have hw : info.name = v.volume := by
        have h3 := List.find?_some hget
        simpa using h3
      cases hadd : (if saveOk then VolStore.addSandboxRef s.volumes v.volume name
          else none) with
      | none => exact hINV
      | some vols =>
        have hsk : saveOk = true := by
          by_contra hns
          rw [if_neg hns] at hadd
          cases hadd
        rw [if_pos hsk, VolStore.addSandboxRef, hget, Option.map_some'] at hadd
        injection hadd with hadd
        by_cases hcont : info.sandboxRefs.contains name = true
        · rw [if_pos hcont] at hadd
          have hself : VolStore.save s.volumes info = s.volumes :=
            upsertBy_self VolumeInfo.name s.volumes info hnd
              (by rw [show VolumeInfo.name info = v.volume from hw]; exact hget)
          have hvols : vols = s.volumes := by rw [← hadd, hself]
          have harc : lg.addedRefs.contains v.volume = true := by
            have h7 := hL info (List.mem_of_find?_eq_some hget)
              (mem_of_contains_true _ _ hcont)
            rw [hw] at h7
            exact h7
          simp only [harc, if_true]
          subst hvols
          apply ih
          · exact hINV
          · exact hnd
          · exact hL
          · exact hL2
        · rw [if_neg hcont] at hadd
          have hnotref : name ∉ info.sandboxRefs :=
            fun hm => hcont (contains_true_of_mem _ _ hm)
          have har : v.volume ∉ lg.addedRefs := by
            intro hmem
            obtain ⟨r, hr, hrn, hrm⟩ := hL2 v.volume hmem
            have hre : r = info := mem_key_eq_of_nodup VolumeInfo.name s.volumes hnd r info
              hr (List.mem_of_find?_eq_some hget) (by rw [hrn, hw])
            exact hnotref (hre ▸ hrm)
          have hneg : ¬(lg.addedRefs.contains v.volume = true) :=
            fun hc => har (mem_of_contains_true _ _ hc)
          simp only [hneg, if_false]
          have hup2 : VolStore.save s.volumes
              { info with sandboxRefs := info.sandboxRefs ++ [name] } =
              s.volumes.map (fun x => if x.name =
                  ({ info with sandboxRefs := info.sandboxRefs ++ [name] } :
                    VolumeInfo).name then
                { info with sandboxRefs := info.sandboxRefs ++ [name] } else x) :=
            upsertBy_map_replace VolumeInfo.name s.volumes _ hnd
              (show VolumeInfo.name ({ info with
                  sandboxRefs := info.sandboxRefs ++ [name] } :
                  VolumeInfo) ∈ s.volumes.map VolumeInfo.name from by
                have h5 : VolumeInfo.name info ∈ s.volumes.map VolumeInfo.name :=
                  List.mem_map_of_mem VolumeInfo.name (List.mem_of_find?_eq_some hget)
                exact h5)
          have hnames2 : (VolStore.save s.volumes
              { info with sandboxRefs := info.sandboxRefs ++ [name] }).map
              VolumeInfo.name = s.volumes.map VolumeInfo.name :=
            map_key_upsertBy VolumeInfo.name s.volumes _
              ⟨info, List.mem_of_find?_eq_some hget, rfl⟩
          subst hadd
          apply ih
          · exact inv_step_attach name v.volume info lg s s0 hINV hnd hget hnotref har
          · show ((VolStore.save s.volumes
                { info with sandboxRefs := info.sandboxRefs ++ [name] }).map
                VolumeInfo.name).Nodup
            rw [hnames2]
            exact hnd
          · intro r hr hnm
            have hr2 : r ∈ VolStore.save s.volumes
                { info with sandboxRefs := info.sandboxRefs ++ [name] } := hr
            rw [hup2] at hr2
            obtain ⟨x, hx, hxe⟩ := List.mem_map.mp hr2
            show (lg.addedRefs ++ [v.volume]).contains r.name = true
            by_cases hxw : x.name = info.name
            · rw [if_pos (show x.name = ({ info with
                  sandboxRefs := info.sandboxRefs ++ [name] } :
                  VolumeInfo).name from hxw)] at hxe
              subst hxe
              have h9 : ({ info with sandboxRefs := info.sandboxRefs ++ [name] } :
                  VolumeInfo).name = v.volume := hw
              rw [h9]
              exact contains_append_singleton_self _ _
            · rw [if_neg (show ¬(x.name = ({ info with
                  sandboxRefs := info.sandboxRefs ++ [name] } :
                  VolumeInfo).name) from hxw)] at hxe
              subst hxe
              exact contains_true_of_mem _ _
                (List.mem_append_left _ (mem_of_contains_true _ _ (hL x hx hnm)))
          · intro a ha
            have ha2 : a ∈ lg.addedRefs ++ [v.volume] := ha
            rcases List.mem_append.mp ha2 with h9 | h9
            · obtain ⟨r, hr, hrn, hrm⟩ := hL2 a h9
              have harne : r.name ≠ info.name := by
                rw [hw, hrn]
                intro he
                exact har (he ▸ h9)
              refine ⟨r, ?_, hrn, hrm⟩
              show r ∈ VolStore.save s.volumes
                { info with sandboxRefs := info.sandboxRefs ++ [name] }
              rw [hup2]
              refine List.mem_map.mpr ⟨r, hr, ?_⟩
              rw [if_neg (show ¬(r.name = ({ info with
                  sandboxRefs := info.sandboxRefs ++ [name] } :
                  VolumeInfo).name) from harne)]
            · rw [List.mem_singleton] at h9
              subst h9
              refine ⟨{ info with sandboxRefs := info.sandboxRefs ++ [name] }, ?_, ?_, ?_⟩
              · show _ ∈ VolStore.save s.volumes
                  { info with sandboxRefs := info.sandboxRefs ++ [name] }
                exact mem_upsertBy VolumeInfo.name s.volumes _
              · exact hw
              · exact List.mem_append_right _ (List.mem_cons_self _ _)

/-- C1: refuted as stated.  Creating sandbox `s` while the tracked volume `v`
already carries a (stale) reference to `s`: the attach is a no-op, but the
rollback after the container-create failure strips every `s` reference,
so the persisted directory-volume records after the failure differ from the
records before the call. -/
theorem rollback_completeness_cex :
    (runCreate ⟨"s", "docker", "img", "", [], true, [], "/base", [],
        [(⟨"volume", "", "v", "/x", "ro", ""⟩, true)], false, "cid", "t0", true⟩
      C1s0).1 = .failed .containerErr ∧
    (runCreate ⟨"s", "docker", "img", "", [], true, [], "/base", [],
        [(⟨"volume", "", "v", "/x", "ro", ""⟩, true)], false, "cid", "t0", true⟩
      C1s0).2.volumes ≠ C1s0.volumes := by
  decide

/-- C1 (amended): rollback completeness holds for a creation whose sandbox
name is referenced by no pre-existing record and whose minted backing-store
names and copy directories are fresh and pairwise distinct: every failure
exit other than the final sandbox-record commit returns the world exactly to
its initial state. -/
theorem rollback_completeness_amended (cfg : CreateCfg) (s0 : WorldState)
    (hnd : (s0.volumes.map VolumeInfo.name).Nodup)
    (hstale : ∀ r ∈ s0.volumes, cfg.name ∉ r.sandboxRefs)
    (hfv : ∀ n ∈ mintedVolNames cfg.name cfg.mounts,
        n ∉ s0.volumes.map VolumeInfo.name ∧ n ∉ s0.dockerVolumes)
    (hfvnd : (mintedVolNames cfg.name cfg.mounts).Nodup)
    (hff : ∀ n ∈ mintedFMNames cfg.name cfg.mounts,
        n ∉ s0.fileMounts.map FileMountInfo.name ∧
        (cfg.baseDir ++ "/" ++ n) ∉ s0.dirs)
    (hffnd : (mintedFMNames cfg.name cfg.mounts).Nodup)
    (e : CreateErr) (hrun : (runCreate cfg s0).1 = .failed e) (hce : e ≠ .commitErr) :
    (runCreate cfg s0).2 = s0 := by
  have hro := processMounts_rollback cfg.name cfg.baseDir s0 cfg.mounts s0 Ledger.empty []
    (rollbackAll_empty _ _) hnd
    (fun r hr hn => absurd hn (hstale r hr))
    (fun a ha => absurd ha (List.not_mem_nil a))
    (fun a ha => absurd ha (List.not_mem_nil a))
    hfv hfvnd hff hffnd
  rw [runCreate] at hrun ⊢
  by_cases hex : (SbStore.get s0.sandboxes cfg.name).isSome = true
  · rw [if_pos hex] at hrun ⊢
  · rw [if_neg hex] at hrun ⊢
    cases hpr : (if (cfg.mounts ≠ [] ∨ cfg.volumeMounts ≠ []) ∧ !cfg.yes then
        promptForConfirmation cfg.stdin else some true) with
    | none => rfl
    | some b =>
      rw [hpr] at hrun
      cases b with
      | false =>
        have hcontra : CreateResult.abortedByUser = CreateResult.failed e := hrun
        cases hcontra
      | true =>
        rw [createPhase] at hrun ⊢
        cases hcp : processMounts cfg.name cfg.baseDir cfg.mounts s0 Ledger.empty [] with
        | fail e3 s3 =>
          rw [hcp] at hro
          exact hro
        | ok s3 lg3 rms3 =>
          rw [hcp] at hro
          obtain ⟨hINV3, hnd3, hL3, hL23⟩ := hro
          have hro2 := processVolumeMounts_rollback cfg.name s0 cfg.volumeMounts s3 lg3
            rms3 hINV3 hnd3 hL3 hL23
          rw [hcp] at hrun
          simp only [] at hrun ⊢
          cases hpv : processVolumeMounts cfg.name cfg.volumeMounts s3 lg3 rms3 with
          | fail e4 s4 =>
            rw [hpv] at hro2
            exact hro2
          | ok s4 lg4 rms4 =>
            rw [hpv] at hrun hro2
            obtain ⟨hINV4, _, _, _⟩ := hro2
            by_cases hco : (!cfg.containerOk) = true
            · simp only [hco, if_true] at hrun ⊢
              exact hINV4
            · simp only [hco, if_false] at hrun ⊢
              by_cases hfs : (!cfg.finalSaveOk) = true
              · simp only [hfs, if_true] at hrun
                have hcontra : CreateResult.failed CreateErr.commitErr =
                    CreateResult.failed e := hrun
                injection hcontra with h
                exact absurd h.symm hce
              · simp only [hfs, if_false] at hrun
                have hcontra : CreateResult.created = CreateResult.failed e := hrun
                cases hcontra

theorem rollback_completeness_amended_witness :
    (runCreate ⟨"s", "docker", "img", "", [], true, [], "/base",
        [(⟨"bind", "/src", "", "/x", "rwcopy", ""⟩,
          ⟨StatResult.dir, 5, "t1", true, true, true, true, true⟩)],
        [(⟨"volume", "", "v", "/y", "ro", ""⟩, true)], false, "cid", "t0", true⟩
      C1s0w).2 = C1s0w :=
  rollback_completeness_amended
    ⟨"s", "docker", "img", "", [], true, [], "/base",
      [(⟨"bind", "/src", "", "/x", "rwcopy", ""⟩,
        ⟨StatResult.dir, 5, "t1", true, true, true, true, true⟩)],
      [(⟨"volume", "", "v", "/y", "ro", ""⟩, true)], false, "cid", "t0", true⟩
    C1s0w (by decide) (by decide) (by decide) (by decide) (by decide) (by decide)
    CreateErr.containerErr (by decide) (by decide)

